import Mathlib

/-!
# sdns: recursive resolver core and purge signalling

A shallow embedding of `resolver.go` (`Resolve`, `lookup`, `searchCache`,
`lookupNSAddr`) and of `api/api.go` (`purge`), with the properties of the
specification that concern them.

Conventions of the embedding.

* A Go `string` is its sequence of bytes (`GoString`).
* A Go `error` result is an `Option`; `none` is `nil`.  A pointer result that
  may be `nil` is an `Option` as well.
* Effects are explicit: the caches, the clock and a log of the effects
  performed (`State.trace`) are threaded through every function.
* Everything the program does not decide itself is a field of `Env`: the
  tables of the DNS library, the iteration order of Go maps, the behaviour of
  the network and of the goroutine scheduler during each probe, the time each
  probe takes, and the random message ids.  Theorems quantify over all `Env`.
* Time passes only while a probe is under way; cache operations take none.
* The embedding follows one descent; concurrent descents are not modelled.
-/

namespace Sdns

/-! ## Strings -/

abbrev Byte := Fin 256

abbrev GoString := List Byte

/-- The bytes (UTF-8) of a literal. -/
def str (s : String) : GoString :=
  (s.data.flatMap String.utf8EncodeChar).map (fun b => b.val)

def dot : Byte := 46

/-- Go `strings.Split(s, sep)` for a one-byte separator. -/
def Split (sep : Byte) : GoString → List GoString
  | [] => [[]]
  | c :: rest =>
    if c = sep then [] :: Split sep rest
    else
      match Split sep rest with
      | [] => [[c]]
      | p :: ps => (c :: p) :: ps

/-- Go `strconv.Itoa` on a natural number. -/
def itoa (n : Nat) : GoString :=
  (Nat.toDigits 10 n).map (fun c => Fin.ofNat c.toNat)

/-! ## The DNS library (`github.com/miekg/dns`) -/

namespace dns

def TypeA : Nat := 1
def TypeNS : Nat := 2
def TypeNULL : Nat := 10
def ClassINET : Nat := 1
def ClassCHAOS : Nat := 3
def RcodeSuccess : Nat := 0
def RcodeServerFailure : Nat := 2
def RcodeNameError : Nat := 3
def RcodeRefused : Nat := 5

/-- The type `dns.Question`. -/
structure Question where
  Name : GoString
  Qtype : Nat
  Qclass : Nat
  deriving DecidableEq, Repr

/-- The type `dns.RR_Header`. -/
structure RR_Header where
  Name : GoString
  Rrtype : Nat
  Class : Nat
  Ttl : Nat
  deriving DecidableEq, Repr

/-- The address of an A record: the four octets unpacked from the wire. -/
structure IP where
  a : Byte
  b : Byte
  c : Byte
  d : Byte
  deriving DecidableEq, Repr

/-- Go `net.IP.String` on an IPv4 address: dotted decimal. -/
def IP.String (ip : IP) : GoString :=
  itoa ip.a.val ++ [dot] ++ itoa ip.b.val ++ [dot] ++ itoa ip.c.val ++ [dot] ++ itoa ip.d.val

/-- The interface `dns.RR` with the dynamic types the resolver tests for:
`*dns.NS`, `*dns.A`, and any other record. -/
inductive RR where
  | NS (Hdr : RR_Header) (Ns : GoString)
  | A (Hdr : RR_Header) (A : IP)
  | other (Hdr : RR_Header) (rdata : List Byte)
  deriving DecidableEq, Repr

/-- The type `dns.Msg`: header and the four sections. -/
structure Msg where
  Id : Nat
  Response : Bool
  Opcode : Nat
  Authoritative : Bool
  Truncated : Bool
  RecursionDesired : Bool
  RecursionAvailable : Bool
  Zero : Bool
  AuthenticatedData : Bool
  CheckingDisabled : Bool
  Rcode : Nat
  Question : List Question
  Answer : List RR
  Ns : List RR
  Extra : List RR
  deriving DecidableEq, Repr

/-- The value of `new(dns.Msg)`. -/
def Msg.new : Msg :=
  { Id := 0, Response := false, Opcode := 0, Authoritative := false, Truncated := false,
    RecursionDesired := false, RecursionAvailable := false, Zero := false,
    AuthenticatedData := false, CheckingDisabled := false, Rcode := 0,
    Question := [], Answer := [], Ns := [], Extra := [] }

/-- The method `(*Msg).SetQuestion(z, t)`; `id` is the value drawn by `dns.Id()`. -/
def Msg.SetQuestion (m : Msg) (id : Nat) (z : GoString) (t : Nat) : Msg :=
  { m with Id := id, RecursionDesired := true, Question := [{ Name := z, Qtype := t, Qclass := ClassINET }] }

/-- The function `dns.Fqdn(s)`, over the library predicate `IsFqdn`. -/
def Fqdn (IsFqdn : GoString → Bool) (s : GoString) : GoString :=
  if IsFqdn s then s else s ++ [dot]

/-- The predicate `dns.IsFqdn` as a trailing-dot test. -/
def IsFqdnSimple (s : GoString) : Bool :=
  s.getLast? = some dot

end dns

/-! ## `encoding/base64`, standard alphabet with padding -/

namespace base64

def pad : Byte := 61

/-- The alphabet `ABC...XYZabc...xyz0123456789+/`. -/
def encodeStd (i : Nat) : Byte :=
  if i < 26 then Fin.ofNat (65 + i)
  else if i < 52 then Fin.ofNat (97 + (i - 26))
  else if i < 62 then Fin.ofNat (48 + (i - 52))
  else if i = 62 then 43
  else 47

/-- The decode map of the alphabet; `none` for a byte outside it. -/
def decodeStd (c : Byte) : Option Nat :=
  if 65 ≤ c.val ∧ c.val ≤ 90 then some (c.val - 65)
  else if 97 ≤ c.val ∧ c.val ≤ 122 then some (c.val - 97 + 26)
  else if 48 ≤ c.val ∧ c.val ≤ 57 then some (c.val - 48 + 52)
  else if c.val = 43 then some 62
  else if c.val = 47 then some 63
  else none

/-- The method `StdEncoding.EncodeToString`: three bytes become a 24-bit value
and four alphabet characters; a final group of one or two bytes is padded. -/
def EncodeToString : List Byte → GoString
  | [] => []
  | [a] =>
    let val := a.val * 65536
    [encodeStd (val / 262144 % 64), encodeStd (val / 4096 % 64), pad, pad]
  | [a, b] =>
    let val := a.val * 65536 + b.val * 256
    [encodeStd (val / 262144 % 64), encodeStd (val / 4096 % 64), encodeStd (val / 64 % 64), pad]
  | a :: b :: c :: rest =>
    let val := a.val * 65536 + b.val * 256 + c.val
    encodeStd (val / 262144 % 64) :: encodeStd (val / 4096 % 64) :: encodeStd (val / 64 % 64)
      :: encodeStd (val % 64) :: EncodeToString rest

/-- Standard base64 decoding of padded text: groups of four characters, the
last of which may end in one or two pad characters. -/
def DecodeString : GoString → Option (List Byte)
  | [] => some []
  | c0 :: c1 :: c2 :: c3 :: rest =>
    if rest = [] ∧ c3 = pad then
      if c2 = pad then
        match decodeStd c0, decodeStd c1 with
        | some v0, some v1 => some [Fin.ofNat ((v0 * 262144 + v1 * 4096) / 65536)]
        | _, _ => none
      else
        match decodeStd c0, decodeStd c1, decodeStd c2 with
        | some v0, some v1, some v2 =>
          let val := v0 * 262144 + v1 * 4096 + v2 * 64
          some [Fin.ofNat (val / 65536), Fin.ofNat (val / 256)]
        | _, _, _ => none
    else
      match decodeStd c0, decodeStd c1, decodeStd c2, decodeStd c3, DecodeString rest with
      | some v0, some v1, some v2, some v3, some tail =>
        let val := v0 * 262144 + v1 * 4096 + v2 * 64 + v3
        some (Fin.ofNat (val / 65536) :: Fin.ofNat (val / 256) :: Fin.ofNat val :: tail)
      | _, _, _, _, _ => none
  | _ => none

end base64

/-! ## `api/api.go` -/

namespace api

/-- The request built by `API.purge` and handed to `dnsutil.ExchangeInternal`.
`ToUpper` is `strings.ToUpper`, `IsFqdn` the library predicate behind
`dns.Fqdn`, `id` the value drawn by `dns.Id()`; `qname` and `qtype` are the
path parameters. -/
def purge (ToUpper : GoString → GoString) (IsFqdn : GoString → Bool) (id : Nat)
    (qname qtype : GoString) : dns.Msg :=
  let qtype := ToUpper qtype
  let qname := dns.Fqdn IsFqdn qname
  let bqname := base64.EncodeToString (qtype ++ str ":" ++ qname)
  let req := dns.Msg.new.SetQuestion id (dns.Fqdn IsFqdn bqname) dns.TypeNULL
  { req with Question := req.Question.modifyHead (fun q => { q with Qclass := dns.ClassCHAOS }) }

end api

/-- The ASCII case of Go `strings.ToUpper`. -/
def asciiUpper (s : GoString) : GoString :=
  s.map (fun c => if 97 ≤ c.val ∧ c.val ≤ 122 then Fin.ofNat (c.val - 32) else c)

/-! ## `resolver.go`: data -/

/-- Modelled from the spec: the type `Question` of the resolver, declared
outside the files at hand (spec 3, Question Key): name, type and class as
strings; the source uses its fields `Qname`, `Qtype` and `Qclass`. -/
structure Question where
  Qname : GoString
  Qtype : GoString
  Qclass : GoString
  deriving DecidableEq, Repr

/-- Modelled from the spec: `keyGen`, defined outside the files at hand.  The
spec asks for a deterministic encoding under which two keys are equal exactly
when the three fields are; the question itself serves as the key. -/
def keyGen (Q : Question) : Question := Q

def toLowerByte (c : Byte) : Byte :=
  if 65 ≤ c.val ∧ c.val ≤ 90 then Fin.ofNat (c.val + 32) else c

/-- Modelled from the spec: `unFqdn`, defined outside the files at hand.  The
spec describes the key name as case-normalised and without the terminal dot. -/
def unFqdn (s : GoString) : GoString :=
  let s := s.map toLowerByte
  if s.getLast? = some dot then s.dropLast else s

/-- Modelled from the spec: `upperName`, defined outside the files at hand.
The spec describes it as stripping the leftmost label of the name. -/
def upperName : GoString → GoString
  | [] => []
  | c :: rest => if c = dot then rest else upperName rest

/-- Modelled from the spec: the delegation record held by the nameserver cache
(the source reads its field `Servers`). -/
structure NS where
  Servers : List GoString
  TTL : Nat
  UpdatedAt : Nat
  deriving DecidableEq, Repr

/-- Modelled from the spec: the type `NameServerCache`, defined outside the
files at hand; a mapping from keys to delegation records. -/
abbrev NameServerCache := List (Question × NS)

/-- Modelled from the spec: `NameServerCache.Get` (spec 4.1), the live record
of the key; a record is live while `now < inserted_at + ttl`. -/
def NameServerCache.Get (c : NameServerCache) (now : Nat) (key : Question) : Option NS :=
  match c.find? (fun e => e.1 = key) with
  | some e => if now < e.2.UpdatedAt + e.2.TTL then some e.2 else none
  | none => none

/-- Modelled from the spec: `NameServerCache.Set` (spec 4.1), insert or
overwrite; an empty server list or a zero ttl is refused with an error. -/
def NameServerCache.Set (c : NameServerCache) (now : Nat) (key : Question) (ttl : Nat)
    (servers : List GoString) : NameServerCache × Bool :=
  if servers = [] ∨ ttl = 0 then (c, false)
  else ((key, { Servers := servers, TTL := ttl, UpdatedAt := now }) :: c.filter (fun e => e.1 ≠ key), true)

/-- Modelled from the spec: `NameServerCache.Remove` (spec 4.1), idempotent
deletion. -/
def NameServerCache.Remove (c : NameServerCache) (key : Question) : NameServerCache :=
  c.filter (fun e => e.1 ≠ key)

/-- Modelled from the spec: the type `MemoryCache` of the transient lookup
cache (spec 4.2), defined outside the files at hand; it stores whole
responses under a key. -/
abbrev MemoryCache := List (Question × dns.Msg)

/-- Modelled from the spec: `MemoryCache.Get` (spec 4.2). -/
def MemoryCache.Get (c : MemoryCache) (key : Question) : Option dns.Msg :=
  (c.find? (fun e => e.1 = key)).map (fun e => e.2)

/-- Modelled from the spec: `MemoryCache.Set` (spec 4.2). -/
def MemoryCache.Set (c : MemoryCache) (key : Question) (m : dns.Msg) : MemoryCache :=
  (key, m) :: c.filter (fun e => e.1 ≠ key)

/-- The errors made with `fmt.Errorf` in `resolver.go`. -/
inductive Err where
  | maxDepth
  | parentDetection
  | rootDetection
  | loopDetection
  | resolvFailed
  | notFound
  deriving DecidableEq, Repr

def Err.Error : Err → String
  | .maxDepth => "maximum recursion depth for DNS tree queried"
  | .parentDetection => "parent detection"
  | .rootDetection => "root servers detection"
  | .loopDetection => "loop detection"
  | .resolvFailed => "resolv failed"
  | .notFound => "not found"

/-- The result of a Go function returning `(value, error)`, or a run-time
panic (index out of range, nil dereference). -/
inductive Outcome (α : Type) where
  | panic
  | ret (v : α) (err : Option Err)
  deriving DecidableEq, Repr

/-- The error result of `c.Exchange`, when not `nil`. -/
inductive ExchangeErr where
  | ErrTruncated
  | other
  deriving DecidableEq, Repr

/-- What one call of `c.Exchange(req, server)` returns: `r` and `err`. -/
structure Exchange where
  r : Option dns.Msg
  err : Option ExchangeErr
  deriving DecidableEq, Repr

/-- What happens while `lookup` runs: the ticker delivers on `ticker.C`, or
the exchange of the probe launched for `servers[i]` returns. -/
inductive Ev where
  | tick
  | done (i : Nat) (x : Exchange)
  deriving DecidableEq, Repr

/-- The effects of a descent, in the order performed. -/
inductive Event where
  | call (servers : List GoString) (root : Bool) (depth : Nat) (level : Int)
  | probe (Net : GoString) (req : dns.Msg) (servers : List GoString)
  | nsProbe (Net : GoString) (req : dns.Msg) (servers : List GoString)
  | nsGet (key : Question)
  | nsSet (key : Question) (ttl : Nat) (servers : List GoString)
  | nsRemove (key : Question)
  | tempGet (key : Question)
  | tempSet (key : Question)
  deriving DecidableEq, Repr

/-- What the resolver does not decide. -/
structure Env where
  /-- The table `dns.TypeToString`. -/
  TypeToString : Nat → GoString
  /-- The table `dns.ClassToString`. -/
  ClassToString : Nat → GoString
  /-- The order in which `range` visits the entries of a map. -/
  mapOrder : List (GoString × GoString) → List (GoString × GoString)
  mapOrder_perm : ∀ m, (mapOrder m).Perm m
  /-- The ticks and exchange results during the `lookup` that starts after `k` effects. -/
  sched : Nat → List Ev
  /-- The time that `lookup` takes. -/
  elapsed : Nat → Nat
  /-- The value drawn by `dns.Id()`. -/
  Id : Nat → Nat

/-- The resolver (`r.nsCache`, `r.tempCache`), the clock, and the log. -/
structure State where
  nsCache : NameServerCache
  tempCache : MemoryCache
  now : Nat
  trace : List Event
  deriving DecidableEq, Repr

def State.log (s : State) (e : Event) : State :=
  { s with trace := s.trace ++ [e] }

def roothints : List GoString :=
  [ str "198.41.0.4:53",
    str "192.228.79.201:53",
    str "192.33.4.12:53",
    str "199.7.91.13:53",
    str "192.203.230.10:53",
    str "192.5.5.241:53",
    str "192.112.36.4:53",
    str "128.63.2.53:53",
    str "192.36.148.17:53",
    str "192.58.128.30:53",
    str "193.0.14.129:53",
    str "199.7.83.42:53",
    str "202.12.27.33:53" ]

/-! ## `resolver.go`: `lookup` -/

/-- The closure `L` of `lookup`, after `c.Exchange` has returned `x`: whether
it reaches the send `res <- r`. -/
def L (x : Exchange) : Bool :=
  if x.err ≠ none ∧ x.err ≠ some ExchangeErr.ErrTruncated then false
  else
    match x.r with
    | some r =>
      if r.Rcode ≠ dns.RcodeSuccess then
        if r.Rcode = dns.RcodeServerFailure then false else true
      else true
    | none => true

/-- Where the body of `lookup` stands: how many servers it has launched, which
probes have not returned, and whether it has left the `for` loop (and waits in
`wg.Wait()`) or still receives on `res` in the loop. -/
structure LState where
  launched : Nat
  pending : List Nat
  waiting : Bool
  deriving DecidableEq, Repr

/-- The body of `lookup` from the first `select` on, for `n` servers.  The
channel `res` is unbuffered and every probe sends without blocking, so a send
succeeds only while `lookup` receives in the loop; the receive after
`wg.Wait()` finds no sender.  When the events end, the probes still running
fail and the ticker keeps ticking. -/
def lookupRun (n : Nat) : LState → List Ev → Option dns.Msg × Option Err
  | _, [] => (none, some Err.resolvFailed)
  | st, Ev.tick :: evs =>
    if st.waiting then lookupRun n st evs
    else if st.launched < n then
      lookupRun n { st with launched := st.launched + 1, pending := st.pending ++ [st.launched] } evs
    else lookupRun n { st with waiting := true } evs
  | st, Ev.done i x :: evs =>
    if i ∈ st.pending then
      if L x ∧ st.waiting = false then (x.r, none)
      else if st.waiting ∧ st.pending.erase i = [] then (none, some Err.resolvFailed)
      else lookupRun n { st with pending := st.pending.erase i } evs
    else lookupRun n st evs

/-- The method `Resolver.lookup(Net, req, servers)` under the events `evs`. -/
def lookup (evs : List Ev) (_Net : GoString) (req : dns.Msg) (servers : List GoString) :
    Outcome (Option dns.Msg) :=
  match req.Question with
  | [] => Outcome.panic
  | _ :: _ =>
    match servers with
    | [] => Outcome.ret none (some Err.resolvFailed)
    | _ :: _ =>
      let out := lookupRun servers.length { launched := 1, pending := [0], waiting := false } evs
      Outcome.ret out.1 out.2

/-! ## `resolver.go`: `searchCache` -/

/-- The method `Resolver.searchCache(q)` with a bound on the number of calls. -/
def searchCacheFuel (E : Env) : Nat → dns.Question → State → Option (List GoString × State)
  | 0, _, _ => none
  | fuel + 1, q, s =>
    let Q : Question := ⟨unFqdn q.Name, E.TypeToString dns.TypeNS, E.ClassToString q.Qclass⟩
    let key := keyGen Q
    match NameServerCache.Get s.nsCache s.now key with
    | some ns => some (ns.Servers, s.log (Event.nsGet key))
    | none =>
      let q : dns.Question := { q with Name := upperName q.Name }
      if q.Name = [] then some (roothints, s.log (Event.nsGet key))
      else searchCacheFuel E fuel q (s.log (Event.nsGet key))

/-- The method `Resolver.searchCache(q)`; the bound is never reached. -/
def searchCache (E : Env) (q : dns.Question) (s : State) : List GoString × State :=
  (searchCacheFuel E (q.Name.length + 1) q s).getD (roothints, s)

/-! ## `resolver.go`: `lookupNSAddr` -/

/-- The first `*dns.A` of a section. -/
def firstA : List dns.RR → Option dns.IP
  | [] => none
  | dns.RR.A _ ip :: _ => some ip
  | _ :: rest => firstA rest

/-- The method `Resolver.lookupNSAddr(Net, ns)`. -/
def lookupNSAddr (E : Env) (Net : GoString) (ns : GoString) (s : State) :
    Outcome GoString × State :=
  let nsReq := dns.Msg.new.SetQuestion (E.Id s.trace.length) ns dns.TypeA
  let Q : Question := ⟨unFqdn ns, E.TypeToString dns.TypeA, E.ClassToString dns.ClassINET⟩
  let key := keyGen Q
  let s1 := s.log (Event.tempGet key)
  match (MemoryCache.Get s.tempCache key).bind (fun nsres => firstA nsres.Answer) with
  | some ip => (Outcome.ret ip.String none, s1)
  | none =>
    let k := s1.trace.length
    let s2 := { s1.log (Event.nsProbe Net nsReq [str "8.8.8.8:53"]) with now := s1.now + E.elapsed k }
    match lookup (E.sched k) Net nsReq [str "8.8.8.8:53"] with
    | Outcome.panic => (Outcome.panic, s2)
    | Outcome.ret _ (some err) => (Outcome.ret [] (some err), s2)
    | Outcome.ret none none => (Outcome.panic, s2)
    | Outcome.ret (some nsres) none =>
      match firstA nsres.Answer with
      | some ip =>
        (Outcome.ret ip.String none,
          { s2 with tempCache := MemoryCache.Set s2.tempCache key nsres }.log (Event.tempSet key))
      | none => (Outcome.ret [] (some Err.notFound), s2)

/-! ## `resolver.go`: `Resolve` -/

/-- Assignment `m[k] = v` on a Go map, kept as its entries. -/
def mapSet (m : List (GoString × GoString)) (k v : GoString) : List (GoString × GoString) :=
  if m.any (fun e => e.1 = k) then m.map (fun e => if e.1 = k then (k, v) else e)
  else m ++ [(k, v)]

/-- Lines 98-104: the map `ns` with one entry per NS target of the Authority
section, each with the empty address. -/
def nsNames (Ns : List dns.RR) : List (GoString × GoString) :=
  Ns.foldl (fun m n => match n with
    | dns.RR.NS _ ns => mapSet m ns []
    | _ => m) []

/-- Lines 106-114: the A records of the Additional section whose owner is a
key of the map give that key its address. -/
def glue (Extra : List dns.RR) (m : List (GoString × GoString)) : List (GoString × GoString) :=
  Extra.foldl (fun m a => match a with
    | dns.RR.A hdr ip => if m.any (fun e => e.1 = hdr.Name) then mapSet m hdr.Name ip.String else m
    | _ => m) m

/-- Lines 116-130: the loop over the map, on the entries in the order visited.
It carries `nservers` and the named result `err`, which the assignment
`addr, err = r.lookupNSAddr(Net, k)` overwrites.  `none` is a panic. -/
def rangeNS (E : Env) (Net : GoString) (req : dns.Msg) :
    List (GoString × GoString) → List GoString → Option Err → State →
      Option (List GoString × Option Err) × State
  | [], nservers, err, s => (some (nservers, err), s)
  | (k, addr) :: rest, nservers, err, s =>
    if addr = [] then
      match req.Question with
      | [] => (none, s)
      | q :: _ =>
        if k = q.Name then (some (nservers, err), s)
        else
          match lookupNSAddr E Net k s with
          | (Outcome.panic, s1) => (none, s1)
          | (Outcome.ret addr1 err1, s1) =>
            if err1 = none then rangeNS E Net req rest (nservers ++ [addr1 ++ str ":53"]) err1 s1
            else rangeNS E Net req rest nservers err1 s1
    else rangeNS E Net req rest (nservers ++ [addr ++ str ":53"]) err s

/-- The server list that lines 98-130 build from the response `resp`. -/
def buildServers (E : Env) (Net : GoString) (req resp : dns.Msg) (s : State) :
    Option (List GoString × Option Err) × State :=
  rangeNS E Net req (E.mapOrder (glue resp.Extra (nsNames resp.Ns))) [] none s

/-- Lines 97-157, from the label `tryservers` on.  `recur` is the recursive
call of `Resolve` with the depth already decremented. -/
def tryservers (E : Env) (Net : GoString) (req : dns.Msg)
    (recur : List GoString → Int → State → Outcome (Option dns.Msg) × State)
    (level : Int) (resp : dns.Msg) (s : State) : Outcome (Option dns.Msg) × State :=
  match buildServers E Net req resp s with
  | (none, s1) => (Outcome.panic, s1)
  | (some (nservers, err), s1) =>
    if nservers.length = 0 then (Outcome.ret (some resp) err, s1)
    else
      match resp.Ns with
      | dns.RR.NS hdr _ :: _ =>
        let nlevel := (Split dot hdr.Name).length
        if level > nlevel then (Outcome.ret (some resp) (some Err.parentDetection), s1)
        else
          let Q : Question := ⟨unFqdn hdr.Name, E.TypeToString hdr.Rrtype, E.ClassToString hdr.Class⟩
          if Q.Qname = [] then (Outcome.ret (some resp) (some Err.rootDetection), s1)
          else
            let key := keyGen Q
            let s2 := { s1 with nsCache := (NameServerCache.Set s1.nsCache s1.now key hdr.Ttl nservers).1 }.log
              (Event.nsSet key hdr.Ttl nservers)
            recur nservers nlevel s2
      | _ => (Outcome.ret (some resp) err, s1)

/-- Lines 63-157: the response has no Answer and a non-empty Authority. -/
def referral (E : Env) (Net : GoString) (req : dns.Msg)
    (recur : List GoString → Int → State → Outcome (Option dns.Msg) × State)
    (servers : List GoString) (level : Int) (resp : dns.Msg) (s : State) :
    Outcome (Option dns.Msg) × State :=
  match resp.Ns with
  | dns.RR.NS hdr _ :: _ =>
    let nlevel := (Split dot hdr.Name).length
    if level > nlevel then (Outcome.ret (some resp) (some Err.parentDetection), s)
    else
      let Q : Question := ⟨unFqdn hdr.Name, E.TypeToString hdr.Rrtype, E.ClassToString hdr.Class⟩
      if Q.Qname = [] then (Outcome.ret (some resp) (some Err.rootDetection), s)
      else
        let key := keyGen Q
        let s1 := s.log (Event.nsGet key)
        match NameServerCache.Get s.nsCache s.now key with
        | some ns =>
          if resp.Ns.length ≠ ns.Servers.length then
            tryservers E Net req recur level resp
              ({ s1 with nsCache := NameServerCache.Remove s1.nsCache key }.log (Event.nsRemove key))
          else if ns.Servers = servers then (Outcome.ret (some resp) (some Err.loopDetection), s1)
          else recur ns.Servers nlevel s1
        | none => tryservers E Net req recur level resp s1
  | _ => tryservers E Net req recur level resp s

/-- Lines 46-49: the server list that the step probes. -/
def rootServers (E : Env) (req : dns.Msg) (servers : List GoString) (root : Bool) (s : State) :
    Option (List GoString × State) :=
  if root then
    match req.Question with
    | [] => none
    | q :: _ => some (searchCache E q s)
  else some (servers, s)

/-- Line 51: the probe of the step, `r.lookup(Net, req, servers)`. -/
def probe (E : Env) (Net : GoString) (req : dns.Msg) (servers : List GoString) (s : State) :
    Outcome (Option dns.Msg) × State :=
  (lookup (E.sched s.trace.length) Net req servers,
    { s.log (Event.probe Net req servers) with now := s.now + E.elapsed s.trace.length })

/-- Lines 46-159: the body of `Resolve` when `depth` is not zero. -/
def descend (E : Env) (Net : GoString) (req : dns.Msg)
    (recur : List GoString → Int → State → Outcome (Option dns.Msg) × State)
    (servers : List GoString) (root : Bool) (level : Int) (s : State) :
    Outcome (Option dns.Msg) × State :=
  match rootServers E req servers root s with
  | none => (Outcome.panic, s)
  | some (servers, s1) =>
    match probe E Net req servers s1 with
    | (Outcome.panic, s2) => (Outcome.panic, s2)
    | (Outcome.ret resp (some err), s2) => (Outcome.ret resp (some err), s2)
    | (Outcome.ret none none, s2) => (Outcome.panic, s2)
    | (Outcome.ret (some resp) none, s2) =>
      if resp.Answer.length > 0 then (Outcome.ret (some { resp with Ns := [] }) none, s2)
      else if resp.Answer.length = 0 ∧ resp.Ns.length > 0 then
        referral E Net req recur servers level resp s2
      else (Outcome.ret (some resp) none, s2)

/-- The method `Resolver.Resolve(Net, req, servers, root, depth, level)`.
Every call is logged on entry.  `depth` is a Go `int`; the budgets from 0 up
are embedded. -/
def Resolve (E : Env) (Net : GoString) (req : dns.Msg) (servers : List GoString) (root : Bool) :
    Nat → Int → State → Outcome (Option dns.Msg) × State
  | 0, level, s => (Outcome.ret none (some Err.maxDepth), s.log (Event.call servers root 0 level))
  | depth + 1, level, s =>
    descend E Net req (fun servers level s => Resolve E Net req servers false depth level s)
      servers root level (s.log (Event.call servers root (depth + 1) level))

/-! ## Notions used in the statements -/

/-- The names that the ancestor search of the spec (4.3) inspects after `n`:
the non-empty names obtained by stripping the leftmost label again and again. -/
def ancestors : GoString → List GoString
  | [] => []
  | c :: rest =>
    if c = dot then (if rest = [] then [] else rest :: ancestors rest)
    else ancestors rest

/-- The label count of a name in the words of the spec (glossary, Level): the
root has 0 labels, `com` has 1, `example.com` has 2; a terminal dot adds none. -/
def labelCount (s : GoString) : Nat :=
  ((Split dot s).filter (fun l => l ≠ [])).length

/-- The live record of the nameserver cache for the delegation of name `a`,
under the key that `searchCache` forms for it. -/
def liveNS (E : Env) (s : State) (qclass : Nat) (a : GoString) : Option NS :=
  NameServerCache.Get s.nsCache s.now
    (keyGen ⟨unFqdn a, E.TypeToString dns.TypeNS, E.ClassToString qclass⟩)

/-- The effects that are neither a call of `Resolve`, nor its probe, nor a
change of the nameserver cache. -/
def Event.quiet : Event → Bool
  | Event.nsProbe _ _ _ => true
  | Event.nsGet _ => true
  | Event.tempGet _ => true
  | Event.tempSet _ => true
  | _ => false

/-- The event is the probe of `req` by `Resolve` (line 51). -/
def Event.isProbe (req : dns.Msg) : Event → Bool
  | Event.probe _ r _ => r = req
  | _ => false

/-- The event is a write `nsCache.Set` (line 149). -/
def Event.isSet : Event → Bool
  | Event.nsSet _ _ _ => true
  | _ => false

/-- The event is a removal `nsCache.Remove` (line 80). -/
def Event.isRemove : Event → Bool
  | Event.nsRemove _ => true
  | _ => false

/-- The depths of the calls of `Resolve` in a log, in order. -/
def callDepths (tr : List Event) : List Nat :=
  tr.filterMap (fun e => match e with
    | Event.call _ _ depth _ => some depth
    | _ => none)

/-- In a list of call depths, every depth is one more than the next: each call
is made with depth exactly one less than that of the call before it. -/
def stepsDown : List Nat → Prop
  | caller :: callee :: rest => caller = callee + 1 ∧ stepsDown (callee :: rest)
  | _ => True

/-- The log of `s1` continues the log of `s` with quiet effects only. -/
def QuietExt (s s1 : State) : Prop :=
  ∃ tr, s1.trace = s.trace ++ tr ∧ ∀ e ∈ tr, e.quiet = true

/-- The log of `s1` continues the log of `s` with no call of `Resolve`, at
most `p` probes of `req`, at most `k` writes and at most `r` removals on the
nameserver cache. -/
def Ext (req : dns.Msg) (p k r : Nat) (s s1 : State) : Prop :=
  ∃ tr, s1.trace = s.trace ++ tr ∧ callDepths tr = [] ∧
    tr.countP (Event.isProbe req) ≤ p ∧ tr.countP Event.isSet ≤ k ∧
    tr.countP Event.isRemove ≤ r

/-- The result `res` of a part of one step begun in state `s`: either the
step is over, or `res` is the result of the recursive call `recur`; up to that
point the log has grown within the bounds `p`, `k` and `r`. -/
def Via (req : dns.Msg) (p k r : Nat)
    (recur : List GoString → Int → State → Outcome (Option dns.Msg) × State)
    (s : State) (res : Outcome (Option dns.Msg) × State) : Prop :=
  Ext req p k r s res.2 ∨ ∃ sv lv st, Ext req p k r s st ∧ res = recur sv lv st

/-! ## Concrete data for the worked cases -/

def udp : GoString := str "udp"

/-- An environment in which maps are visited in insertion order, every probe
takes one unit of time, and the network behaves as `sched` says. -/
def exEnv (sched : Nat → List Ev) : Env :=
  { TypeToString := fun t => if t = 2 then str "NS" else if t = 1 then str "A" else [],
    ClassToString := fun c => if c = 1 then str "IN" else if c = 3 then str "CH" else [],
    mapOrder := fun m => m,
    mapOrder_perm := fun m => List.Perm.refl m,
    sched := sched,
    elapsed := fun _ => 1,
    Id := fun _ => 0 }

/-- The query `www.example.com. IN A`. -/
def exReq : dns.Msg := dns.Msg.new.SetQuestion 1 (str "www.example.com.") dns.TypeA

def exServers : List GoString := [str "1.2.3.4:53"]

/-- A referral to `example.com.`, served by `ns1.example.com.` with glue `1.2.3.4`. -/
def exReferral : dns.Msg :=
  { dns.Msg.new with
      Response := true,
      Question := exReq.Question,
      Ns := [dns.RR.NS ⟨str "example.com.", 2, 1, 300⟩ (str "ns1.example.com.")],
      Extra := [dns.RR.A ⟨str "ns1.example.com.", 1, 1, 300⟩ ⟨1, 2, 3, 4⟩] }

/-- The same referral without glue. -/
def exGlueless : dns.Msg := { exReferral with Extra := [] }

/-- An answer, with an Authority and an Additional section. -/
def exAnswer : dns.Msg :=
  { dns.Msg.new with
      Response := true,
      Question := exReq.Question,
      Answer := [dns.RR.A ⟨str "www.example.com.", 1, 1, 60⟩ ⟨5, 6, 7, 8⟩],
      Ns := [dns.RR.NS ⟨str "example.com.", 2, 1, 300⟩ (str "ns1.example.com.")],
      Extra := [dns.RR.A ⟨str "ns1.example.com.", 1, 1, 300⟩ ⟨1, 2, 3, 4⟩] }

/-- A name error: no Answer, a SOA in the Authority section. -/
def exNXDomain : dns.Msg :=
  { dns.Msg.new with
      Response := true,
      Rcode := dns.RcodeNameError,
      Question := exReq.Question,
      Ns := [dns.RR.other ⟨str "example.com.", 6, 1, 300⟩ []] }

/-- The key of the delegation of `example.com.`. -/
def exKey : Question := ⟨str "example.com", str "NS", str "IN"⟩

/-- Empty caches at time 0. -/
def exState : State := { nsCache := [], tempCache := [], now := 0, trace := [] }

/-- The delegations of `com.` and `example.com.` cached at time 0. -/
def exCached : State :=
  { nsCache := [(⟨str "com", str "NS", str "IN"⟩, ⟨[str "192.5.6.30:53"], 300, 0⟩),
                (exKey, ⟨exServers, 300, 0⟩)],
    tempCache := [], now := 0, trace := [] }

/-- The first probe is answered by the referral, every later one by the answer. -/
def schedReferralThenAnswer (k : Nat) : List Ev :=
  if k = 1 then [Ev.done 0 ⟨some exReferral, none⟩] else [Ev.done 0 ⟨some exAnswer, none⟩]

/-- The first probe is answered by the glue-less referral; no later exchange succeeds. -/
def schedGlueless (k : Nat) : List Ev :=
  if k = 1 then [Ev.done 0 ⟨some exGlueless, none⟩] else []

/-- A glue-less referral with two nameservers, the second of which bears the
name of the query. -/
def exTwoNS : dns.Msg :=
  { exGlueless with
      Ns := [dns.RR.NS ⟨str "example.com.", 2, 1, 300⟩ (str "ns1.example.com."),
             dns.RR.NS ⟨str "example.com.", 2, 1, 300⟩ (str "www.example.com.")] }

/-- The first probe is answered by `exTwoNS`; no later exchange succeeds. -/
def schedTwoNS (k : Nat) : List Ev :=
  if k = 1 then [Ev.done 0 ⟨some exTwoNS, none⟩] else []

/-- As `exEnv`, with maps visited in the reverse of insertion order. -/
def exEnvRev (sched : Nat → List Ev) : Env :=
  { exEnv sched with
      mapOrder := fun m => m.reverse,
      mapOrder_perm := fun m => List.reverse_perm m }

/-- A referral whose NS record is owned by the root. -/
def exRootReferral : dns.Msg :=
  { exGlueless with
      Ns := [dns.RR.NS ⟨str ".", 2, 1, 300⟩ (str "a.root-servers.net.")] }

/-- Every probe is answered by the referral to `example.com.`. -/
def schedReferral (_k : Nat) : List Ev :=
  [Ev.done 0 ⟨some exReferral, none⟩]

/-- Every probe is answered by the referral owned by the root. -/
def schedRootReferral (_k : Nat) : List Ev :=
  [Ev.done 0 ⟨some exRootReferral, none⟩]

/-- A response with rcode SERVFAIL. -/
def exServFail : dns.Msg :=
  { dns.Msg.new with Response := true, Rcode := dns.RcodeServerFailure, Question := exReq.Question }

/-! # Theorems -/

/-! ## Worked values of the embedding -/

theorem EncodeToString_vectors :
    base64.EncodeToString (str "") = str "" ∧
    base64.EncodeToString (str "f") = str "Zg==" ∧
    base64.EncodeToString (str "fo") = str "Zm8=" ∧
    base64.EncodeToString (str "foo") = str "Zm9v" ∧
    base64.EncodeToString (str "foob") = str "Zm9vYg==" ∧
    base64.EncodeToString (str "fooba") = str "Zm9vYmE=" ∧
    base64.EncodeToString (str "foobar") = str "Zm9vYmFy" := by
  decide

theorem DecodeString_vectors :
    base64.DecodeString (str "Zm9vYg==") = some (str "foob") ∧
    base64.DecodeString (str "Zm9vYmE=") = some (str "fooba") ∧
    base64.DecodeString (str "Zm9vYmFy") = some (str "foobar") ∧
    base64.DecodeString (str "Zm9") = none ∧
    base64.DecodeString (str "Zm9v.") = none ∧
    base64.DecodeString (str "Zg==Zm9v") = none := by
  decide

theorem purge_value :
    (api.purge asciiUpper dns.IsFqdnSimple 7 (str "example.com") (str "mx")).Question
      = [⟨str "TVg6ZXhhbXBsZS5jb20u.", dns.TypeNULL, dns.ClassCHAOS⟩] := by
  decide

theorem name_values :
    Split dot (str "example.com.") = [str "example", str "com", str ""] ∧
    (Split dot (str "")).length = 1 ∧
    unFqdn (str "Example.COM.") = str "example.com" ∧
    unFqdn (str ".") = str "" ∧
    upperName (str "www.example.com.") = str "example.com." ∧
    upperName (str "com.") = str "" ∧
    ancestors (str "www.example.com.") = [str "example.com.", str "com."] ∧
    dns.IP.String ⟨192, 168, 0, 1⟩ = str "192.168.0.1" := by
  decide

/-- Scenario S6 of the spec: the first server answers SERVFAIL, the second is
launched at the tick and answers; the answer of the second is returned. -/
theorem lookup_servfail_then_answer :
    lookup [Ev.done 0 ⟨some exServFail, none⟩, Ev.tick, Ev.done 1 ⟨some exAnswer, none⟩]
        udp exReq [str "1.2.3.4:53", str "5.6.7.8:53"]
      = Outcome.ret (some exAnswer) none := by
  decide

/-- Scenario S1 of the spec, from the referral on: the delegation is cached
and the answer of the delegated server is returned. -/
theorem Resolve_referral_then_answer :
    (Resolve (exEnv schedReferralThenAnswer) udp exReq roothints false 2 0 exState).1
      = Outcome.ret (some { exAnswer with Ns := [] }) none ∧
    (Resolve (exEnv schedReferralThenAnswer) udp exReq roothints false 2 0 exState).2.nsCache
      = [(exKey, ⟨exServers, 300, 1⟩)] := by
  decide

/-- Scenario S3 of the spec: a name error with a SOA in the Authority section
is returned unchanged and without error. -/
theorem Resolve_name_error :
    (Resolve (exEnv (fun _ => [Ev.done 0 ⟨some exNXDomain, none⟩])) udp exReq exServers false
        3 0 exState).1
      = Outcome.ret (some exNXDomain) none := by
  decide

/-- With the nameservers of `exTwoNS`, none of which gets an address, the
error that `Resolve` reports beside the response depends on the order in which
the map of nameservers is visited. -/
theorem Resolve_empty_delegation_order :
    (Resolve (exEnv schedTwoNS) udp exReq exServers false 1 0 exState).1
      = Outcome.ret (some exTwoNS) (some Err.resolvFailed) ∧
    (Resolve (exEnvRev schedTwoNS) udp exReq exServers false 1 0 exState).1
      = Outcome.ret (some exTwoNS) none := by
  decide

/-! ## Lemmas: base64 -/

namespace base64

theorem decodeStd_encodeStd (i : Nat) (h : i < 64) : decodeStd (encodeStd i) = some i := by
  interval_cases i <;> decide

theorem encodeStd_ne_pad (i : Nat) (h : i < 64) : encodeStd i ≠ pad := by
  interval_cases i <;> decide

theorem encodeStd_ne_dot (i : Nat) (h : i < 64) : encodeStd i ≠ dot := by
  interval_cases i <;> decide

theorem byte_eq_of_val (a : Byte) (n : Nat) (h : n % 256 = a.val) : (Fin.ofNat n : Byte) = a := by
  apply Fin.ext
  show n % 256 = a.val
  exact h

theorem DecodeString_EncodeToString (bs : List Byte) :
    DecodeString (EncodeToString bs) = some bs := by
  induction bs using EncodeToString.induct with
  | case1 => simp [EncodeToString, DecodeString]
  | case2 a =>
    have ha := a.isLt
    simp only [EncodeToString, DecodeString, and_self, if_true]
    rw [decodeStd_encodeStd _ (Nat.mod_lt _ (by norm_num)),
      decodeStd_encodeStd _ (Nat.mod_lt _ (by norm_num))]
    simp only [Option.some.injEq, List.cons.injEq, and_true]
    apply byte_eq_of_val
    omega
  | case3 a b =>
    have ha := a.isLt
    have hb := b.isLt
    simp only [EncodeToString, DecodeString, and_self, if_true, true_and]
    rw [if_neg (encodeStd_ne_pad _ (Nat.mod_lt _ (by norm_num)))]
    rw [decodeStd_encodeStd _ (Nat.mod_lt _ (by norm_num)),
      decodeStd_encodeStd _ (Nat.mod_lt _ (by norm_num)),
      decodeStd_encodeStd _ (Nat.mod_lt _ (by norm_num))]
    simp only [Option.some.injEq, List.cons.injEq, and_true]
    constructor <;> apply byte_eq_of_val <;> omega
  | case4 a b c rest ih =>
    have ha := a.isLt
    have hb := b.isLt
    have hc := c.isLt
    simp only [EncodeToString, DecodeString]
    rw [if_neg (fun h => encodeStd_ne_pad _ (Nat.mod_lt _ (by norm_num)) h.2)]
    rw [decodeStd_encodeStd _ (Nat.mod_lt _ (by norm_num)),
      decodeStd_encodeStd _ (Nat.mod_lt _ (by norm_num)),
      decodeStd_encodeStd _ (Nat.mod_lt _ (by norm_num)),
      decodeStd_encodeStd _ (Nat.mod_lt _ (by norm_num)), ih]
    simp only [Option.some.injEq, List.cons.injEq, and_true]
    refine ⟨?_, ?_, ?_⟩ <;> apply byte_eq_of_val <;> omega

theorem dot_not_mem_EncodeToString (bs : List Byte) : dot ∉ EncodeToString bs := by
  have hp : dot ≠ pad := by decide
  have he : ∀ i, dot ≠ encodeStd (i % 64) :=
    fun i h => encodeStd_ne_dot _ (Nat.mod_lt _ (by norm_num)) h.symm
  induction bs using EncodeToString.induct with
  | case1 => simp [EncodeToString]
  | case2 a => simp [EncodeToString, hp, he]
  | case3 a b => simp [EncodeToString, hp, he]
  | case4 a b c rest ih => simp [EncodeToString, he, ih]

end base64

theorem Fqdn_of_dot_not_mem (IsFqdn : GoString → Bool)
    (hFqdn : ∀ s, IsFqdn s = true → s.getLast? = some dot) (b : GoString) (hb : dot ∉ b) :
    dns.Fqdn IsFqdn b = b ++ [dot] := by
  unfold dns.Fqdn
  cases h : IsFqdn b with
  | false => simp
  | true => exact absurd (List.mem_of_getLast?_eq_some (hFqdn b h)) hb

/-- C7 (purge encoding round trip).  For every `qname` and `qtype`, the request
built by `purge` has exactly one question, of class CHAOS and type NULL; its
name ends in a dot, the name without that dot contains no dot, and that name
decodes, in standard base64, to exactly `ToUpper(qtype) + ":" + Fqdn(qname)`.
`ToUpper` is arbitrary and `IsFqdn` is any predicate that holds only of names
ending in a dot, as the predicate of the DNS library does. -/
theorem purge_encoding_roundtrip (ToUpper : GoString → GoString) (IsFqdn : GoString → Bool)
    (hFqdn : ∀ s, IsFqdn s = true → s.getLast? = some dot) (id : Nat) (qname qtype : GoString) :
    ∃ q : dns.Question, (api.purge ToUpper IsFqdn id qname qtype).Question = [q] ∧
      q.Qclass = dns.ClassCHAOS ∧ q.Qtype = dns.TypeNULL ∧
      q.Name.getLast? = some dot ∧ dot ∉ q.Name.dropLast ∧
      base64.DecodeString q.Name.dropLast
        = some (ToUpper qtype ++ str ":" ++ dns.Fqdn IsFqdn qname) := by
  have hb := base64.dot_not_mem_EncodeToString (ToUpper qtype ++ str ":" ++ dns.Fqdn IsFqdn qname)
  refine ⟨⟨base64.EncodeToString (ToUpper qtype ++ str ":" ++ dns.Fqdn IsFqdn qname) ++ [dot],
    dns.TypeNULL, dns.ClassCHAOS⟩, ?_, rfl, rfl, ?_, ?_, ?_⟩
  · simp only [api.purge, dns.Msg.SetQuestion, List.modifyHead]
    rw [Fqdn_of_dot_not_mem IsFqdn hFqdn _ hb]
  · simp
  · simpa using hb
  · simpa using base64.DecodeString_EncodeToString _

/-- C7 at `qname = "example.com"`, `qtype = "mx"`, with the trailing-dot test
for `IsFqdn`. -/
theorem purge_encoding_roundtrip_witness :
    (∀ s, dns.IsFqdnSimple s = true → s.getLast? = some dot) ∧
    ∃ q : dns.Question,
      (api.purge asciiUpper dns.IsFqdnSimple 7 (str "example.com") (str "mx")).Question = [q] ∧
      q.Qclass = dns.ClassCHAOS ∧ q.Qtype = dns.TypeNULL ∧
      q.Name.getLast? = some dot ∧ dot ∉ q.Name.dropLast ∧
      base64.DecodeString q.Name.dropLast
        = some (asciiUpper (str "mx") ++ str ":" ++ dns.Fqdn dns.IsFqdnSimple (str "example.com")) :=
  ⟨fun s h => by simpa [dns.IsFqdnSimple] using h,
    purge_encoding_roundtrip asciiUpper dns.IsFqdnSimple
      (fun s h => by simpa [dns.IsFqdnSimple] using h) 7 (str "example.com") (str "mx")⟩

/-! ## Lemmas: the log of a descent -/

theorem quiet_event (req : dns.Msg) (e : Event) (he : e.quiet = true) :
    callDepths [e] = [] ∧ Event.isProbe req e = false ∧ Event.isSet e = false ∧
      Event.isRemove e = false := by
  cases e with
  | call _ _ _ _ => exact absurd he (by simp [Event.quiet])
  | probe _ _ _ => exact absurd he (by simp [Event.quiet])
  | nsSet _ _ _ => exact absurd he (by simp [Event.quiet])
  | nsRemove _ => exact absurd he (by simp [Event.quiet])
  | nsProbe _ _ _ => exact ⟨rfl, rfl, rfl, rfl⟩
  | nsGet _ => exact ⟨rfl, rfl, rfl, rfl⟩
  | tempGet _ => exact ⟨rfl, rfl, rfl, rfl⟩
  | tempSet _ => exact ⟨rfl, rfl, rfl, rfl⟩

theorem callDepths_append (a b : List Event) : callDepths (a ++ b) = callDepths a ++ callDepths b := by
  simp [callDepths, List.filterMap_append]

theorem quiet_segment (req : dns.Msg) (tr : List Event) (h : ∀ e ∈ tr, e.quiet = true) :
    callDepths tr = [] ∧ tr.countP (Event.isProbe req) = 0 ∧ tr.countP Event.isSet = 0 ∧
      tr.countP Event.isRemove = 0 := by
  induction tr with
  | nil => exact ⟨rfl, rfl, rfl, rfl⟩
  | cons e tr ih =>
    obtain ⟨c1, p1, s1, r1⟩ := quiet_event req e (h e (List.mem_cons_self _ _))
    obtain ⟨c2, p2, s2, r2⟩ := ih (fun e1 he1 => h e1 (List.mem_cons_of_mem _ he1))
    refine ⟨?_, ?_, ?_, ?_⟩
    · have := callDepths_append [e] tr
      rw [c1, c2] at this
      simpa using this
    · rw [List.countP_cons, p2, p1]; rfl
    · rw [List.countP_cons, s2, s1]; rfl
    · rw [List.countP_cons, r2, r1]; rfl

theorem QuietExt.refl (s : State) : QuietExt s s := ⟨[], by simp, by simp⟩

theorem QuietExt.andThen {s s1 s2 : State} (h1 : QuietExt s s1) (h2 : QuietExt s1 s2) :
    QuietExt s s2 := by
  obtain ⟨t1, e1, q1⟩ := h1
  obtain ⟨t2, e2, q2⟩ := h2
  refine ⟨t1 ++ t2, by rw [e2, e1, List.append_assoc], ?_⟩
  intro e he
  rcases List.mem_append.mp he with h | h
  · exact q1 e h
  · exact q2 e h

theorem QuietExt.step {s s1 : State} (e : Event) (ht : s1.trace = s.trace ++ [e])
    (hq : e.quiet = true) : QuietExt s s1 :=
  ⟨[e], ht, by simpa using hq⟩

theorem lookupNSAddr_trace (E : Env) (Net ns : GoString) (s : State) :
    QuietExt s (lookupNSAddr E Net ns s).2 := by
  unfold lookupNSAddr
  simp only
  split
  · exact QuietExt.step (Event.tempGet _) rfl rfl
  · have h1 : QuietExt s (s.log (Event.tempGet (keyGen
        ⟨unFqdn ns, E.TypeToString dns.TypeA, E.ClassToString dns.ClassINET⟩))) :=
      QuietExt.step _ rfl rfl
    split
    · exact h1.andThen (QuietExt.step (Event.nsProbe _ _ _) rfl rfl)
    · exact h1.andThen (QuietExt.step (Event.nsProbe _ _ _) rfl rfl)
    · exact h1.andThen (QuietExt.step (Event.nsProbe _ _ _) rfl rfl)
    · split
      · exact (h1.andThen (QuietExt.step (Event.nsProbe _ _ _) rfl rfl)).andThen
          (QuietExt.step (Event.tempSet _) rfl rfl)
      · exact h1.andThen (QuietExt.step (Event.nsProbe _ _ _) rfl rfl)

theorem rangeNS_trace (E : Env) (Net : GoString) (req : dns.Msg) :
    ∀ (m : List (GoString × GoString)) (nservers : List GoString) (err : Option Err) (s : State),
      QuietExt s (rangeNS E Net req m nservers err s).2
  | [], nservers, err, s => by simpa [rangeNS] using QuietExt.refl s
  | (k, addr) :: rest, nservers, err, s => by
    unfold rangeNS
    split
    · split
      · exact QuietExt.refl s
      · split
        · exact QuietExt.refl s
        · have h1 := lookupNSAddr_trace E Net k s
          split
          · rename_i s1 heq
            rw [heq] at h1
            exact h1
          · rename_i addr1 err1 s1 heq
            rw [heq] at h1
            split
            · exact h1.andThen (rangeNS_trace E Net req rest _ err1 s1)
            · exact h1.andThen (rangeNS_trace E Net req rest nservers err1 s1)
    · exact rangeNS_trace E Net req rest (nservers ++ [addr ++ str ":53"]) err s

/-! ## Lemmas: `searchCache` -/

theorem ancestors_eq (s : GoString) :
    ancestors s = if upperName s = [] then [] else upperName s :: ancestors (upperName s) := by
  induction s with
  | nil => simp [ancestors, upperName]
  | cons c rest ih =>
    by_cases hc : c = dot
    · simp only [ancestors, upperName, hc, if_true]
    · simp only [ancestors, upperName, hc, if_false]
      exact ih

theorem upperName_length_le (s : GoString) : (upperName s).length ≤ s.length - 1 := by
  induction s with
  | nil => simp [upperName]
  | cons c rest ih =>
    by_cases hc : c = dot
    · simp [upperName, hc]
    · simp only [upperName, hc, if_false, List.length_cons]
      omega

theorem upperName_length_lt (s : GoString) (h : upperName s ≠ []) :
    (upperName s).length < s.length := by
  have h1 := upperName_length_le s
  have h2 : 0 < (upperName s).length := List.length_pos.mpr h
  omega

theorem length_lt_of_mem_ancestors (s b : GoString) (hb : b ∈ ancestors s) :
    b.length < s.length := by
  induction s with
  | nil => simp [ancestors] at hb
  | cons c rest ih =>
    by_cases hc : c = dot
    · by_cases hr : rest = []
      · simp [ancestors, hc, hr] at hb
      · simp only [ancestors, hc, hr, if_true, if_false, List.mem_cons] at hb
        rcases hb with rfl | hb
        · simp
        · have := ih hb
          simp only [List.length_cons]
          omega
    · simp only [ancestors, hc, if_false] at hb
      have := ih hb
      simp only [List.length_cons]
      omega

theorem ancestors_pairwise (s : GoString) :
    (ancestors s).Pairwise (fun x y => y.length < x.length) := by
  induction s with
  | nil => simp [ancestors]
  | cons c rest ih =>
    by_cases hc : c = dot
    · by_cases hr : rest = []
      · simp [ancestors, hc, hr]
      · simp only [ancestors, hc, hr, if_true, if_false, List.pairwise_cons]
        exact ⟨fun b hb => length_lt_of_mem_ancestors rest b hb, ih⟩
    · simp only [ancestors, hc, if_false]
      exact ih

theorem candidates_pairwise (n : GoString) :
    (n :: ancestors n).Pairwise (fun x y => y.length < x.length) :=
  List.pairwise_cons.mpr ⟨fun b hb => length_lt_of_mem_ancestors n b hb, ancestors_pairwise n⟩

theorem findSome?_of_longest (f : GoString → Option NS) :
    ∀ (l : List GoString), l.Pairwise (fun x y => y.length < x.length) →
      ∀ (a : GoString) (d : NS), a ∈ l → f a = some d →
        (∀ b ∈ l, (f b).isSome = true → b.length ≤ a.length) → l.findSome? f = some d
  | [], _, _, _, ha, _, _ => by simp at ha
  | x :: xs, hp, a, d, ha, hfa, hmax => by
    rw [List.pairwise_cons] at hp
    rcases List.mem_cons.mp ha with rfl | hmem
    · simp [List.findSome?, hfa]
    · have hlt := hp.1 a hmem
      have hx : f x = none := by
        cases hfx : f x with
        | none => rfl
        | some v =>
          have := hmax x (List.mem_cons_self _ _) (by simp [hfx])
          omega
      simp only [List.findSome?, hx]
      exact findSome?_of_longest f xs hp.2 a d hmem hfa
        (fun b hb hsome => hmax b (List.mem_cons_of_mem _ hb) hsome)

theorem longest_of_findSome? (f : GoString → Option NS) (l : List GoString)
    (hp : l.Pairwise (fun x y => y.length < x.length)) (d : NS)
    (h : l.findSome? f = some d) :
    ∃ a ∈ l, f a = some d ∧ ∀ b ∈ l, (f b).isSome = true → b.length ≤ a.length := by
  obtain ⟨l1, a, l2, rfl, hfa, hnone⟩ := List.findSome?_eq_some_iff.mp h
  refine ⟨a, by simp, hfa, ?_⟩
  intro b hb hsome
  rw [List.pairwise_append] at hp
  rcases List.mem_append.mp hb with h1 | h2
  · rw [hnone b h1] at hsome
    exact absurd hsome (by simp)
  · rcases List.mem_cons.mp h2 with rfl | h3
    · exact le_refl _
    · exact Nat.le_of_lt ((List.pairwise_cons.mp hp.2.1).1 b h3)

theorem liveNS_log (E : Env) (s : State) (e : Event) : liveNS E (s.log e) = liveNS E s := rfl

/-- The ancestor search with enough fuel: it answers with the first live
delegation among the name and its ancestors, or with the root hints; it leaves
the caches and the clock alone and logs only cache reads. -/
theorem searchCacheFuel_eq (E : Env) :
    ∀ (fuel : Nat) (q : dns.Question) (s : State), q.Name.length < fuel →
      ∃ keys : List Question,
        searchCacheFuel E fuel q s
          = some (match (q.Name :: ancestors q.Name).findSome? (liveNS E s q.Qclass) with
                  | some ns => ns.Servers
                  | none => roothints,
                  { s with trace := s.trace ++ keys.map Event.nsGet })
  | 0, _, _, h => absurd h (Nat.not_lt_zero _)
  | fuel + 1, q, s, h => by
    simp only [searchCacheFuel, List.findSome?]
    have hlive : liveNS E s q.Qclass q.Name
        = NameServerCache.Get s.nsCache s.now
            (keyGen ⟨unFqdn q.Name, E.TypeToString dns.TypeNS, E.ClassToString q.Qclass⟩) := rfl
    rw [hlive]
    cases hget : NameServerCache.Get s.nsCache s.now
        (keyGen ⟨unFqdn q.Name, E.TypeToString dns.TypeNS, E.ClassToString q.Qclass⟩) with
    | some ns =>
      exact ⟨[keyGen ⟨unFqdn q.Name, E.TypeToString dns.TypeNS, E.ClassToString q.Qclass⟩], rfl⟩
    | none =>
      by_cases hup : upperName q.Name = []
      · refine ⟨[keyGen ⟨unFqdn q.Name, E.TypeToString dns.TypeNS, E.ClassToString q.Qclass⟩], ?_⟩
        rw [ancestors_eq, if_pos hup]
        simp [hup, State.log]
      · have hlen := upperName_length_lt q.Name hup
        obtain ⟨keys, hk⟩ := searchCacheFuel_eq E fuel { q with Name := upperName q.Name }
          (s.log (Event.nsGet
            (keyGen ⟨unFqdn q.Name, E.TypeToString dns.TypeNS, E.ClassToString q.Qclass⟩)))
          (by simp only; omega)
        refine ⟨keyGen ⟨unFqdn q.Name, E.TypeToString dns.TypeNS, E.ClassToString q.Qclass⟩
          :: keys, ?_⟩
        rw [liveNS_log] at hk
        simp only [hup, if_false]
        rw [hk, ancestors_eq q.Name, if_neg hup]
        simp [State.log, liveNS, List.findSome?]

theorem searchCache_eq (E : Env) (q : dns.Question) (s : State) :
    ∃ keys : List Question,
      searchCache E q s
        = (match (q.Name :: ancestors q.Name).findSome? (liveNS E s q.Qclass) with
           | some ns => ns.Servers
           | none => roothints,
           { s with trace := s.trace ++ keys.map Event.nsGet }) := by
  obtain ⟨keys, hk⟩ := searchCacheFuel_eq E (q.Name.length + 1) q s (Nat.lt_succ_self _)
  exact ⟨keys, by simp [searchCache, hk]⟩

theorem searchCacheFuel_indep (E : Env) :
    ∀ (f1 f2 : Nat) (q : dns.Question) (s : State), q.Name.length < f1 → q.Name.length < f2 →
      searchCacheFuel E f1 q s = searchCacheFuel E f2 q s
  | 0, _, _, _, h, _ => absurd h (Nat.not_lt_zero _)
  | _ + 1, 0, _, _, _, h => absurd h (Nat.not_lt_zero _)
  | f1 + 1, f2 + 1, q, s, h1, h2 => by
    simp only [searchCacheFuel]
    split
    · rfl
    · split
      · rfl
      · rename_i hup
        have hlen := upperName_length_lt q.Name hup
        exact searchCacheFuel_indep E f1 f2 _ _ (by simp only; omega) (by simp only; omega)

theorem searchCacheFuel_enough (E : Env) (fuel : Nat) (q : dns.Question) (s : State)
    (h : q.Name.length < fuel) : searchCacheFuel E fuel q s = some (searchCache E q s) := by
  obtain ⟨k2, h2⟩ := searchCacheFuel_eq E (q.Name.length + 1) q s (Nat.lt_succ_self _)
  rw [searchCacheFuel_indep E fuel (q.Name.length + 1) q s h (Nat.lt_succ_self _)]
  simp [searchCache, h2]

/-- The server list of a step: with `root` unset it is the argument and nothing
happens; with `root` set it is the result of the ancestor search, which only
reads the nameserver cache. -/
theorem rootServers_state (E : Env) (req : dns.Msg) (servers : List GoString) (root : Bool)
    (s : State) (sv : List GoString) (s1 : State)
    (h : rootServers E req servers root s = some (sv, s1)) :
    ∃ keys : List Question, s1 = { s with trace := s.trace ++ keys.map Event.nsGet } ∧
      (root = false → keys = [] ∧ sv = servers) := by
  unfold rootServers at h
  cases root with
  | false =>
    simp only [Bool.false_eq_true, if_false, Option.some.injEq, Prod.mk.injEq] at h
    obtain ⟨rfl, rfl⟩ := h
    exact ⟨[], by simp, fun _ => ⟨rfl, rfl⟩⟩
  | true =>
    simp only [if_true] at h
    split at h
    · exact absurd h (by simp)
    · rename_i q qs hq
      obtain ⟨keys, hk⟩ := searchCache_eq E q s
      rw [hk] at h
      simp only [Option.some.injEq, Prod.mk.injEq] at h
      obtain ⟨_, rfl⟩ := h
      exact ⟨keys, rfl, fun h => absurd h (by simp)⟩

theorem rootServers_quiet (E : Env) (req : dns.Msg) (servers : List GoString) (root : Bool)
    (s : State) (sv : List GoString) (s1 : State)
    (h : rootServers E req servers root s = some (sv, s1)) : QuietExt s s1 := by
  obtain ⟨keys, rfl, _⟩ := rootServers_state E req servers root s sv s1 h
  refine ⟨keys.map Event.nsGet, rfl, ?_⟩
  intro e he
  obtain ⟨k, _, rfl⟩ := List.mem_map.mp he
  rfl

/-! ## Lemmas: `Resolve` -/

theorem Resolve_succ (E : Env) (Net : GoString) (req : dns.Msg) (servers : List GoString)
    (root : Bool) (depth : Nat) (level : Int) (s : State) :
    Resolve E Net req servers root (depth + 1) level s
      = descend E Net req (fun servers level s => Resolve E Net req servers false depth level s)
          servers root level (s.log (Event.call servers root (depth + 1) level)) := rfl

theorem descend_of_probe (E : Env) (Net : GoString) (req : dns.Msg)
    (recur : List GoString → Int → State → Outcome (Option dns.Msg) × State)
    (servers : List GoString) (root : Bool) (level : Int) (s : State)
    (sv : List GoString) (s1 : State) (resp : dns.Msg)
    (hroot : rootServers E req servers root s = some (sv, s1))
    (hprobe : lookup (E.sched s1.trace.length) Net req sv = Outcome.ret (some resp) none) :
    descend E Net req recur servers root level s
      = if resp.Answer.length > 0 then
          (Outcome.ret (some { resp with Ns := [] }) none, (probe E Net req sv s1).2)
        else if resp.Answer.length = 0 ∧ resp.Ns.length > 0 then
          referral E Net req recur sv level resp (probe E Net req sv s1).2
        else (Outcome.ret (some resp) none, (probe E Net req sv s1).2) := by
  simp only [descend, hroot, probe, hprobe]

/-- C9 (depth exhaustion).  For every transport, request, server list, root
flag and level, `Resolve` called with depth 0 returns no response and the
error "maximum recursion depth for DNS tree queried"; the log gains the entry
of the call and nothing else (no probe, no ancestor search, no cache access),
and both caches and the clock are as before. -/
theorem Resolve_depth_zero (E : Env) (Net : GoString) (req : dns.Msg) (servers : List GoString)
    (root : Bool) (level : Int) (s : State) :
    (Resolve E Net req servers root 0 level s).1 = Outcome.ret none (some Err.maxDepth) ∧
    Err.maxDepth.Error = "maximum recursion depth for DNS tree queried" ∧
    (Resolve E Net req servers root 0 level s).2.trace = s.trace ++ [Event.call servers root 0 level] ∧
    (Resolve E Net req servers root 0 level s).2.nsCache = s.nsCache ∧
    (Resolve E Net req servers root 0 level s).2.tempCache = s.tempCache ∧
    (Resolve E Net req servers root 0 level s).2.now = s.now :=
  ⟨rfl, rfl, rfl, rfl, rfl, rfl⟩

/-- The state in which a step is once its probe has returned, in terms of the
state `s` in which `Resolve` was called. -/
theorem probe_state (E : Env) (Net : GoString) (req : dns.Msg) (servers : List GoString)
    (root : Bool) (depth : Nat) (level : Int) (s : State) (sv : List GoString) (s1 : State)
    (hroot : rootServers E req servers root (s.log (Event.call servers root depth level))
      = some (sv, s1)) :
    ∃ keys : List Question, (root = false → keys = [] ∧ sv = servers) ∧
      (probe E Net req sv s1).2
        = { s with
            trace := s.trace ++ Event.call servers root depth level
              :: (keys.map Event.nsGet ++ [Event.probe Net req sv]),
            now := s.now + E.elapsed s1.trace.length } := by
  obtain ⟨keys, rfl, hk⟩ := rootServers_state E req servers root _ sv s1 hroot
  exact ⟨keys, hk, by simp [probe, State.log]⟩

/-- C6 (an answer is terminal).  In every call of `Resolve` with depth at
least 1 whose probe returns a response `resp` with at least one Answer record,
`Resolve` returns, with no error, the message `m` that is `resp` with the
Authority section emptied; Answer and Additional are those of `resp`.  The
final state is the state `s` of the call with the log extended by the call,
the cache reads `keys` of the ancestor search (none unless `root`), and the
probe: after the probe there is no call of `Resolve` and no cache access, and
both caches are unchanged. -/
theorem Resolve_answer_terminal (E : Env) (Net : GoString) (req : dns.Msg) (servers : List GoString)
    (root : Bool) (depth : Nat) (level : Int) (s : State)
    (sv : List GoString) (s1 : State) (resp : dns.Msg)
    (hroot : rootServers E req servers root (s.log (Event.call servers root (depth + 1) level))
      = some (sv, s1))
    (hprobe : lookup (E.sched s1.trace.length) Net req sv = Outcome.ret (some resp) none)
    (hans : 0 < resp.Answer.length) :
    ∃ m : dns.Msg,
      (Resolve E Net req servers root (depth + 1) level s).1 = Outcome.ret (some m) none ∧
      m = { resp with Ns := [] } ∧ m.Ns = [] ∧ m.Answer = resp.Answer ∧ m.Extra = resp.Extra ∧
      ∃ keys : List Question, (root = false → keys = [] ∧ sv = servers) ∧
        (Resolve E Net req servers root (depth + 1) level s).2
          = { s with
              trace := s.trace ++ Event.call servers root (depth + 1) level
                :: (keys.map Event.nsGet ++ [Event.probe Net req sv]),
              now := s.now + E.elapsed s1.trace.length } := by
  have h : Resolve E Net req servers root (depth + 1) level s
      = (Outcome.ret (some { resp with Ns := [] }) none, (probe E Net req sv s1).2) := by
    rw [Resolve_succ, descend_of_probe E Net req _ servers root level _ sv s1 resp hroot hprobe,
      if_pos hans]
  obtain ⟨keys, hk, hs⟩ := probe_state E Net req servers root (depth + 1) level s sv s1 hroot
  rw [h]
  exact ⟨_, rfl, rfl, rfl, rfl, rfl, keys, hk, hs⟩

/-- C8, as amended (parent detection).  In every call of `Resolve` with depth
at least 1 whose probe returns a response with no Answer and an NS record
first in the Authority section, if `nlevel`, the number of pieces into which
the dots split the owner of that record (`len(strings.Split(name, "."))`, for
a fully qualified name its label count plus one), is smaller than `level`,
then `Resolve` returns the response with the error "parent detection".  The
final state is the state `s` of the call with the log extended by the call,
the cache reads `keys` that the ancestor search makes before the probe (none
unless `root`), and the probe: from the probe on the nameserver cache is
neither consulted nor changed, no glue address is resolved, and `Resolve` is
not called again. -/
theorem Resolve_parent_detection (E : Env) (Net : GoString) (req : dns.Msg)
    (servers : List GoString) (root : Bool) (depth : Nat) (level : Int) (s : State)
    (sv : List GoString) (s1 : State) (resp : dns.Msg) (hdr : dns.RR_Header) (target : GoString)
    (rest : List dns.RR)
    (hroot : rootServers E req servers root (s.log (Event.call servers root (depth + 1) level))
      = some (sv, s1))
    (hprobe : lookup (E.sched s1.trace.length) Net req sv = Outcome.ret (some resp) none)
    (hans : resp.Answer = [])
    (hns : resp.Ns = dns.RR.NS hdr target :: rest)
    (hlevel : ((Split dot hdr.Name).length : Int) < level) :
    (Resolve E Net req servers root (depth + 1) level s).1
        = Outcome.ret (some resp) (some Err.parentDetection) ∧
    Err.parentDetection.Error = "parent detection" ∧
    ∃ keys : List Question, (root = false → keys = [] ∧ sv = servers) ∧
      (Resolve E Net req servers root (depth + 1) level s).2
        = { s with
            trace := s.trace ++ Event.call servers root (depth + 1) level
              :: (keys.map Event.nsGet ++ [Event.probe Net req sv]),
            now := s.now + E.elapsed s1.trace.length } := by
  have h : Resolve E Net req servers root (depth + 1) level s
      = (Outcome.ret (some resp) (some Err.parentDetection), (probe E Net req sv s1).2) := by
    rw [Resolve_succ, descend_of_probe E Net req _ servers root level _ sv s1 resp hroot hprobe]
    simp only [hans, hns, referral, gt_iff_lt, hlevel, List.length_nil, List.length_cons,
      lt_self_iff_false, if_false, if_true, true_and, Nat.zero_lt_succ]
  obtain ⟨keys, hk, hs⟩ := probe_state E Net req servers root (depth + 1) level s sv s1 hroot
  rw [h]
  exact ⟨rfl, rfl, keys, hk, hs⟩

theorem Ext.of_quiet (req : dns.Msg) {s s1 : State} (h : QuietExt s s1) :
    Ext req 0 0 0 s s1 := by
  obtain ⟨tr, e, q⟩ := h
  obtain ⟨c, p, k, r⟩ := quiet_segment req tr q
  exact ⟨tr, e, c, by omega, by omega, by omega⟩

theorem Ext.append {req : dns.Msg} {p1 k1 r1 p2 k2 r2 : Nat} {s s1 s2 : State}
    (h1 : Ext req p1 k1 r1 s s1) (h2 : Ext req p2 k2 r2 s1 s2) :
    Ext req (p1 + p2) (k1 + k2) (r1 + r2) s s2 := by
  obtain ⟨t1, e1, c1, a1, b1, d1⟩ := h1
  obtain ⟨t2, e2, c2, a2, b2, d2⟩ := h2
  refine ⟨t1 ++ t2, by rw [e2, e1, List.append_assoc], ?_, ?_, ?_, ?_⟩
  · rw [callDepths_append, c1, c2]; rfl
  · rw [List.countP_append]; omega
  · rw [List.countP_append]; omega
  · rw [List.countP_append]; omega

theorem Ext.mono {req : dns.Msg} {p1 k1 r1 p2 k2 r2 : Nat} {s s1 : State}
    (h : Ext req p1 k1 r1 s s1) (hp : p1 ≤ p2) (hk : k1 ≤ k2) (hr : r1 ≤ r2) :
    Ext req p2 k2 r2 s s1 := by
  obtain ⟨t, e, c, a, b, d⟩ := h
  exact ⟨t, e, c, by omega, by omega, by omega⟩

theorem Ext.set (req : dns.Msg) (s : State) (c : NameServerCache) (key : Question) (ttl : Nat)
    (servers : List GoString) :
    Ext req 0 1 0 s ({ s with nsCache := c }.log (Event.nsSet key ttl servers)) :=
  ⟨[Event.nsSet key ttl servers], rfl, rfl, by simp [Event.isProbe], by simp [Event.isSet],
    by simp [Event.isRemove]⟩

theorem Ext.remove (req : dns.Msg) (s : State) (c : NameServerCache) (key : Question) :
    Ext req 0 0 1 s ({ s with nsCache := c }.log (Event.nsRemove key)) :=
  ⟨[Event.nsRemove key], rfl, rfl, by simp [Event.isProbe], by simp [Event.isSet],
    by simp [Event.isRemove]⟩

theorem Ext.probe (E : Env) (Net : GoString) (req : dns.Msg) (sv : List GoString) (s : State) :
    Ext req 1 0 0 s (probe E Net req sv s).2 :=
  ⟨[Event.probe Net req sv], rfl, rfl, by simp [Event.isProbe], by simp [Event.isSet],
    by simp [Event.isRemove]⟩

theorem Via.lift {req : dns.Msg} {p1 k1 r1 p2 k2 r2 p k r : Nat}
    {recur : List GoString → Int → State → Outcome (Option dns.Msg) × State}
    {s s1 : State} {res : Outcome (Option dns.Msg) × State}
    (h2 : Via req p2 k2 r2 recur s1 res) (h1 : Ext req p1 k1 r1 s s1)
    (hp : p1 + p2 ≤ p) (hk : k1 + k2 ≤ k) (hr : r1 + r2 ≤ r) :
    Via req p k r recur s res := by
  rcases h2 with h | ⟨sv, lv, st, h, e⟩
  · exact Or.inl ((h1.append h).mono hp hk hr)
  · exact Or.inr ⟨sv, lv, st, (h1.append h).mono hp hk hr, e⟩

theorem Via.done {req : dns.Msg} {p k r : Nat}
    {recur : List GoString → Int → State → Outcome (Option dns.Msg) × State}
    {s s1 : State} (o : Outcome (Option dns.Msg)) (h : QuietExt s s1) :
    Via req p k r recur s (o, s1) :=
  Or.inl ((Ext.of_quiet req h).mono (Nat.zero_le _) (Nat.zero_le _) (Nat.zero_le _))

theorem buildServers_trace (E : Env) (Net : GoString) (req resp : dns.Msg) (s : State) :
    QuietExt s (buildServers E Net req resp s).2 :=
  rangeNS_trace E Net req _ [] none s

theorem tryservers_via (E : Env) (Net : GoString) (req : dns.Msg)
    (recur : List GoString → Int → State → Outcome (Option dns.Msg) × State)
    (level : Int) (resp : dns.Msg) (s : State) :
    Via req 0 1 0 recur s (tryservers E Net req recur level resp s) := by
  have hb := buildServers_trace E Net req resp s
  unfold tryservers
  split
  · rename_i s1 heq
    rw [heq] at hb
    exact Via.done _ hb
  · rename_i nservers err s1 heq
    rw [heq] at hb
    split
    · exact Via.done _ hb
    · split
      · simp only
        split
        · exact Via.done _ hb
        · split
          · exact Via.done _ hb
          · exact Or.inr ⟨_, _, _, (Ext.of_quiet req hb).append (Ext.set req s1 _ _ _ _), rfl⟩
      · exact Via.done _ hb

theorem referral_via (E : Env) (Net : GoString) (req : dns.Msg)
    (recur : List GoString → Int → State → Outcome (Option dns.Msg) × State)
    (servers : List GoString) (level : Int) (resp : dns.Msg) (s : State) :
    Via req 0 1 1 recur s (referral E Net req recur servers level resp s) := by
  have tv : ∀ st, Via req 0 1 1 recur st (tryservers E Net req recur level resp st) :=
    fun st => Via.lift (tryservers_via E Net req recur level resp st)
      (Ext.of_quiet req (QuietExt.refl st)) (by omega) (by omega) (by omega)
  unfold referral
  split
  · simp only
    split
    · exact Via.done _ (QuietExt.refl s)
    · split
      · exact Via.done _ (QuietExt.refl s)
      · rename_i hdr tgt tl heq h1 h2
        have hg : QuietExt s (s.log (Event.nsGet (keyGen
            ⟨unFqdn hdr.Name, E.TypeToString hdr.Rrtype, E.ClassToString hdr.Class⟩))) :=
          QuietExt.step _ rfl rfl
        split
        · split
          · exact Via.lift (tryservers_via E Net req recur level resp _)
              ((Ext.of_quiet req hg).append (Ext.remove req _ _ _))
              (by omega) (by omega) (by omega)
          · split
            · exact Via.done _ hg
            · exact Or.inr ⟨_, _, _, (Ext.of_quiet req hg).mono (le_refl _) (Nat.zero_le _)
                (Nat.zero_le _), rfl⟩
        · exact Via.lift (tv _) (Ext.of_quiet req hg) (by omega) (by omega) (by omega)
  · exact tv s

theorem descend_via (E : Env) (Net : GoString) (req : dns.Msg)
    (recur : List GoString → Int → State → Outcome (Option dns.Msg) × State)
    (servers : List GoString) (root : Bool) (level : Int) (s : State) :
    Via req 1 1 1 recur s (descend E Net req recur servers root level s) := by
  unfold descend
  split
  · exact Via.done _ (QuietExt.refl s)
  · rename_i sv s1 hroot
    have hq := rootServers_quiet E req servers root s sv s1 hroot
    have hp : Ext req 1 0 0 s (probe E Net req sv s1).2 := by
      simpa using (Ext.of_quiet req hq).append (Ext.probe E Net req sv s1)
    have hp1 : Ext req 1 1 1 s (probe E Net req sv s1).2 :=
      hp.mono (le_refl _) (Nat.zero_le _) (Nat.zero_le _)
    split
    · rename_i s2 heq
      have : s2 = (probe E Net req sv s1).2 := by rw [heq]
      exact Or.inl (this ▸ hp1)
    · rename_i resp err s2 heq
      have : s2 = (probe E Net req sv s1).2 := by rw [heq]
      exact Or.inl (this ▸ hp1)
    · rename_i s2 heq
      have : s2 = (probe E Net req sv s1).2 := by rw [heq]
      exact Or.inl (this ▸ hp1)
    · rename_i resp s2 heq
      have : s2 = (probe E Net req sv s1).2 := by rw [heq]
      subst this
      split
      · exact Or.inl hp1
      · split
        · exact Via.lift (referral_via E Net req recur sv level resp _) hp
            (by omega) (by omega) (by omega)
        · exact Or.inl hp1

/-- C10 (the depth bounds the descent).  `Resolve` is a total function: for
every depth, every environment (probes, map order, timing) and every state of
the caches it produces a result.  The effects it logs, `tr`, begin with the
call at depth `depth`; each later call of `Resolve` in `tr` has depth exactly
one less than the call before it, which is its caller; `tr` holds at most
`depth` probes of `req` (line 51) and at most `depth` writes `nsCache.Set`
(line 149).  The removals `nsCache.Remove` (line 80) number at most `depth`
as well. -/
theorem Resolve_depth_bounds_descent (E : Env) (Net : GoString) (req : dns.Msg) :
    ∀ (depth : Nat) (servers : List GoString) (root : Bool) (level : Int) (s : State),
      ∃ tr : List Event,
        (Resolve E Net req servers root depth level s).2.trace = s.trace ++ tr ∧
        (callDepths tr).head? = some depth ∧
        stepsDown (callDepths tr) ∧
        tr.countP (Event.isProbe req) ≤ depth ∧
        tr.countP Event.isSet ≤ depth ∧
        tr.countP Event.isRemove ≤ depth
  | 0, servers, root, level, s =>
    ⟨[Event.call servers root 0 level], rfl, rfl, by simp [callDepths, stepsDown],
      by simp [Event.isProbe], by simp [Event.isSet], by simp [Event.isRemove]⟩
  | depth + 1, servers, root, level, s => by
    rw [Resolve_succ]
    have hc : callDepths [Event.call servers root (depth + 1) level] = [depth + 1] := rfl
    rcases descend_via E Net req
        (fun servers level s => Resolve E Net req servers false depth level s) servers root level
        (s.log (Event.call servers root (depth + 1) level)) with h | ⟨sv, lv, st, h, e⟩
    · obtain ⟨pre, ht, c, p, k, r⟩ := h
      have hcd : callDepths (Event.call servers root (depth + 1) level :: pre) = [depth + 1] := by
        have := callDepths_append [Event.call servers root (depth + 1) level] pre
        rw [hc, c] at this
        simpa using this
      refine ⟨Event.call servers root (depth + 1) level :: pre, ?_, ?_, ?_, ?_, ?_, ?_⟩
      · rw [ht]; simp [State.log]
      · rw [hcd]; rfl
      · rw [hcd]; simp [stepsDown]
      · rw [List.countP_cons]; simp only [Event.isProbe]; simp; omega
      · rw [List.countP_cons]; simp only [Event.isSet]; simp; omega
      · rw [List.countP_cons]; simp only [Event.isRemove]; simp; omega
    · obtain ⟨pre, ht, c, p, k, r⟩ := h
      obtain ⟨tr, ht2, hd, hch, p2, k2, r2⟩ :=
        Resolve_depth_bounds_descent E Net req depth sv false lv st
      rw [e]
      have hcd : callDepths (Event.call servers root (depth + 1) level :: (pre ++ tr))
          = (depth + 1) :: callDepths tr := by
        have h1 := callDepths_append [Event.call servers root (depth + 1) level] (pre ++ tr)
        rw [hc, callDepths_append pre tr, c] at h1
        simpa using h1
      refine ⟨Event.call servers root (depth + 1) level :: (pre ++ tr), ?_, ?_, ?_, ?_, ?_, ?_⟩
      · simp only; rw [ht2, ht]; simp [State.log]
      · rw [hcd]; rfl
      · rw [hcd]
        cases hl : callDepths tr with
        | nil => simp [stepsDown]
        | cons x xs =>
          rw [hl] at hd hch
          simp only [List.head?_cons, Option.some.injEq] at hd
          exact ⟨by omega, hch⟩
      · rw [List.countP_cons, List.countP_append]; simp only [Event.isProbe]; simp; omega
      · rw [List.countP_cons, List.countP_append]; simp only [Event.isSet]; simp; omega
      · rw [List.countP_cons, List.countP_append]; simp only [Event.isRemove]; simp; omega

theorem lookupNSAddr_nsCache (E : Env) (Net ns : GoString) (s : State) :
    (lookupNSAddr E Net ns s).2.nsCache = s.nsCache := by
  unfold lookupNSAddr
  simp only
  split
  · rfl
  · split
    · rfl
    · rfl
    · rfl
    · split
      · rfl
      · rfl

theorem rangeNS_nsCache (E : Env) (Net : GoString) (req : dns.Msg) :
    ∀ (m : List (GoString × GoString)) (nservers : List GoString) (err : Option Err) (s : State),
      (rangeNS E Net req m nservers err s).2.nsCache = s.nsCache
  | [], nservers, err, s => by simp [rangeNS]
  | (k, addr) :: rest, nservers, err, s => by
    unfold rangeNS
    split
    · split
      · rfl
      · split
        · rfl
        · have h1 := lookupNSAddr_nsCache E Net k s
          split
          · rename_i s1 heq
            rw [heq] at h1
            exact h1
          · rename_i addr1 err1 s1 heq
            rw [heq] at h1
            split
            · rw [rangeNS_nsCache E Net req rest _ err1 s1]; exact h1
            · rw [rangeNS_nsCache E Net req rest nservers err1 s1]; exact h1
    · exact rangeNS_nsCache E Net req rest (nservers ++ [addr ++ str ":53"]) err s

/-- When the server list built at the label `tryservers` is empty, the step
ends there: the response is returned as it is, with whatever the address
lookups left in `err`, and the nameserver cache is as it was at the label. -/
theorem tryservers_empty_list (E : Env) (Net : GoString) (req : dns.Msg)
    (recur : List GoString → Int → State → Outcome (Option dns.Msg) × State)
    (level : Int) (resp : dns.Msg) (s s1 : State) (err : Option Err)
    (hb : buildServers E Net req resp s = (some ([], err), s1)) :
    tryservers E Net req recur level resp s = (Outcome.ret (some resp) err, s1) ∧
      s1.nsCache = s.nsCache := by
  refine ⟨by simp [tryservers, hb], ?_⟩
  have := rangeNS_nsCache E Net req (E.mapOrder (glue resp.Extra (nsNames resp.Ns))) [] none s
  unfold buildServers at hb
  rw [hb] at this
  exact this

/-- Once `lookup` has left the loop and waits in `wg.Wait()`, no event makes
it return a response. -/
theorem lookupRun_waiting (n : Nat) :
    ∀ (evs : List Ev) (st : LState), st.waiting = true →
      lookupRun n st evs = (none, some Err.resolvFailed)
  | [], _, _ => rfl
  | Ev.tick :: evs, st, h => by
    simp only [lookupRun, h, if_true]
    exact lookupRun_waiting n evs st h
  | Ev.done i x :: evs, st, h => by
    simp only [lookupRun, h]
    split
    · simp only [Bool.true_eq_false, and_false, if_false, true_and]
      split
      · rfl
      · exact lookupRun_waiting n evs _ rfl
    · exact lookupRun_waiting n evs st h

/-- C1, as amended (loop detection on the cached list).  In every call of
`Resolve` with depth at least 1 whose probe returns a referral (no Answer, an
NS record first in the Authority section) that passes the parent check and
the root check, if the nameserver cache holds a live record under the key of
the referral, with as many servers as the Authority section has records, and
these servers equal the server list `sv` that the step probed, then `Resolve`
returns the response with the error "loop detection".  The log gains the call,
the cache reads of the ancestor search (none unless `root`), the probe and the
one cache read: there is no recursive call. -/
theorem Resolve_loop_detection (E : Env) (Net : GoString) (req : dns.Msg)
    (servers : List GoString) (root : Bool) (depth : Nat) (level : Int) (s : State)
    (sv : List GoString) (s1 : State) (resp : dns.Msg) (hdr : dns.RR_Header) (target : GoString)
    (rest : List dns.RR) (ns : NS)
    (hroot : rootServers E req servers root (s.log (Event.call servers root (depth + 1) level))
      = some (sv, s1))
    (hprobe : lookup (E.sched s1.trace.length) Net req sv = Outcome.ret (some resp) none)
    (hans : resp.Answer = [])
    (hns : resp.Ns = dns.RR.NS hdr target :: rest)
    (hlevel : ¬ level > ((Split dot hdr.Name).length : Int))
    (hname : unFqdn hdr.Name ≠ [])
    (hget : NameServerCache.Get s1.nsCache (s1.now + E.elapsed s1.trace.length)
      (keyGen ⟨unFqdn hdr.Name, E.TypeToString hdr.Rrtype, E.ClassToString hdr.Class⟩) = some ns)
    (hcount : resp.Ns.length = ns.Servers.length)
    (heq : ns.Servers = sv) :
    (Resolve E Net req servers root (depth + 1) level s).1
        = Outcome.ret (some resp) (some Err.loopDetection) ∧
    Err.loopDetection.Error = "loop detection" ∧
    ∃ keys : List Question, (root = false → keys = [] ∧ sv = servers) ∧
      (Resolve E Net req servers root (depth + 1) level s).2
        = { s with
            trace := s.trace ++ Event.call servers root (depth + 1) level
              :: (keys.map Event.nsGet ++ [Event.probe Net req sv, Event.nsGet
                (keyGen ⟨unFqdn hdr.Name, E.TypeToString hdr.Rrtype,
                  E.ClassToString hdr.Class⟩)]),
            now := s.now + E.elapsed s1.trace.length } := by
  have h : Resolve E Net req servers root (depth + 1) level s
      = (Outcome.ret (some resp) (some Err.loopDetection),
          (probe E Net req sv s1).2.log (Event.nsGet
            (keyGen ⟨unFqdn hdr.Name, E.TypeToString hdr.Rrtype, E.ClassToString hdr.Class⟩))) := by
    rw [Resolve_succ, descend_of_probe E Net req _ servers root level _ sv s1 resp hroot hprobe]
    have hget2 : NameServerCache.Get (probe E Net req sv s1).2.nsCache (probe E Net req sv s1).2.now
        (keyGen ⟨unFqdn hdr.Name, E.TypeToString hdr.Rrtype, E.ClassToString hdr.Class⟩)
          = some ns := hget
    have hsv : 0 < sv.length := by
      rw [← heq, ← hcount, hns]
      exact Nat.succ_pos _
    rw [hns] at hcount
    simp only [hans, hns, referral, hlevel, hname, hget2, hcount, heq, hsv, List.length_nil,
      List.length_cons, gt_iff_lt, lt_self_iff_false, if_false, if_true, true_and,
      Nat.zero_lt_succ, ne_eq, not_true_eq_false]
  obtain ⟨keys, hk, hs⟩ := probe_state E Net req servers root (depth + 1) level s sv s1 hroot
  rw [h, hs]
  exact ⟨rfl, rfl, keys, hk, by simp [State.log]⟩

/-- C1 as amended, at a cache that holds the delegation of `example.com.` with
the very server that is probed. -/
theorem Resolve_loop_detection_witness :
    (Resolve (exEnv schedReferralThenAnswer) udp exReq exServers false 1 0 exCached).1
        = Outcome.ret (some exReferral) (some Err.loopDetection) ∧
    (Resolve (exEnv schedReferralThenAnswer) udp exReq exServers false 1 0 exCached).2.trace
        = [Event.call exServers false 1 0, Event.probe udp exReq exServers, Event.nsGet exKey] ∧
    (Resolve (exEnv schedReferralThenAnswer) udp exReq exServers false 1 0 exCached).2.nsCache
        = exCached.nsCache := by
  obtain ⟨h1, _, keys, hk, h2⟩ :=
    Resolve_loop_detection (exEnv schedReferralThenAnswer) udp exReq exServers false 0 0 exCached
      exServers (exCached.log (Event.call exServers false 1 0)) exReferral
      ⟨str "example.com.", 2, 1, 300⟩ (str "ns1.example.com.") [] ⟨exServers, 300, 0⟩
      rfl (by decide) rfl rfl (by decide) (by decide) (by decide) rfl rfl
  obtain ⟨rfl, _⟩ := hk rfl
  rw [h2]
  exact ⟨h1, by decide, rfl⟩

/-- C6 at a step of depth 1 whose probe is answered. -/
theorem Resolve_answer_terminal_witness :
    (Resolve (exEnv schedReferralThenAnswer) udp exReq exServers false 1 3
        (exCached.log (Event.call exServers false 2 0))).1
      = Outcome.ret (some { exAnswer with Ns := [] }) none ∧
    (Resolve (exEnv schedReferralThenAnswer) udp exReq exServers false 1 3
        (exCached.log (Event.call exServers false 2 0))).2.trace
      = [Event.call exServers false 2 0, Event.call exServers false 1 3,
         Event.probe udp exReq exServers] := by
  obtain ⟨m, h1, hm, _, _, _, keys, hk, h2⟩ :=
    Resolve_answer_terminal (exEnv schedReferralThenAnswer) udp exReq exServers false 0 3
      (exCached.log (Event.call exServers false 2 0))
      exServers ((exCached.log (Event.call exServers false 2 0)).log
        (Event.call exServers false 1 3)) exAnswer rfl (by decide) (by decide)
  obtain ⟨rfl, _⟩ := hk rfl
  rw [h1, h2, hm]
  exact ⟨rfl, by decide⟩

/-- C8 as amended, at level 4 and a referral whose owner `example.com.` splits
into 3 pieces. -/
theorem Resolve_parent_detection_witness :
    (Resolve (exEnv schedReferralThenAnswer) udp exReq exServers false 1 4 exState).1
      = Outcome.ret (some exReferral) (some Err.parentDetection) ∧
    (Resolve (exEnv schedReferralThenAnswer) udp exReq exServers false 1 4 exState).2.trace
      = [Event.call exServers false 1 4, Event.probe udp exReq exServers] := by
  obtain ⟨h1, _, keys, hk, h2⟩ :=
    Resolve_parent_detection (exEnv schedReferralThenAnswer) udp exReq exServers false 0 4
      exState exServers (exState.log (Event.call exServers false 1 4)) exReferral
      ⟨str "example.com.", 2, 1, 300⟩ (str "ns1.example.com.") [] rfl (by decide) rfl rfl
      (by decide)
  obtain ⟨rfl, _⟩ := hk rfl
  rw [h2]
  exact ⟨h1, by decide⟩

/-- C8, counterexample.  The owner `example.com.` has 2 labels and splits into
3 pieces.  At level 3 the label count is smaller than the level, and yet
`Resolve` reports no parent detection: it consults the cache, writes the
delegation and calls itself, and the second probe is answered.  The owner `.`
has 0 labels and splits into 2 pieces: at level 2 `Resolve` reports "root
servers detection".  And with `root` set, at level 5, `Resolve` does report
"parent detection", after the ancestor search has read the nameserver cache
three times. -/
theorem Resolve_parent_detection_label_count :
    labelCount (str "example.com.") = 2 ∧ (Split dot (str "example.com.")).length = 3 ∧
    labelCount (str ".") = 0 ∧ (Split dot (str ".")).length = 2 ∧
    lookup ((exEnv schedReferralThenAnswer).sched 1) udp exReq exServers
        = Outcome.ret (some exReferral) none ∧
    exReferral.Answer = [] ∧
    exReferral.Ns = [dns.RR.NS ⟨str "example.com.", 2, 1, 300⟩ (str "ns1.example.com.")] ∧
    (Resolve (exEnv schedReferralThenAnswer) udp exReq exServers false 2 3 exState).1
        = Outcome.ret (some { exAnswer with Ns := [] }) none ∧
    (Resolve (exEnv schedReferralThenAnswer) udp exReq exServers false 2 3 exState).2.trace
        = [Event.call exServers false 2 3, Event.probe udp exReq exServers, Event.nsGet exKey,
           Event.nsSet exKey 300 exServers, Event.call exServers false 1 3,
           Event.probe udp exReq exServers] ∧
    exRootReferral.Answer = [] ∧
    exRootReferral.Ns = [dns.RR.NS ⟨str ".", 2, 1, 300⟩ (str "a.root-servers.net.")] ∧
    (Resolve (exEnv schedRootReferral) udp exReq exServers false 1 2 exState).1
        = Outcome.ret (some exRootReferral) (some Err.rootDetection) ∧
    (Resolve (exEnv schedReferral) udp exReq exServers true 1 5 exState).1
        = Outcome.ret (some exReferral) (some Err.parentDetection) ∧
    (Resolve (exEnv schedReferral) udp exReq exServers true 1 5 exState).2.trace
        = [Event.call exServers true 1 5,
           Event.nsGet ⟨str "www.example.com", str "NS", str "IN"⟩,
           Event.nsGet ⟨str "example.com", str "NS", str "IN"⟩,
           Event.nsGet ⟨str "com", str "NS", str "IN"⟩,
           Event.probe udp exReq roothints] := by
  decide

/-- C1, counterexample.  With an empty cache, the probe of `1.2.3.4:53` returns
a referral to `example.com.` with glue `1.2.3.4`; the server list built from
it equals the input list, and yet `Resolve` writes the cache and calls itself
with depth 1, where the probe is answered: the result is the answer with no
error, not "loop detection". -/
theorem Resolve_built_list_not_compared :
    lookup ((exEnv schedReferralThenAnswer).sched 1) udp exReq exServers
        = Outcome.ret (some exReferral) none ∧
    exReferral.Answer = [] ∧
    exReferral.Ns = [dns.RR.NS ⟨str "example.com.", 2, 1, 300⟩ (str "ns1.example.com.")] ∧
    (buildServers (exEnv schedReferralThenAnswer) udp exReq exReferral
        ((probe (exEnv schedReferralThenAnswer) udp exReq exServers
          (exState.log (Event.call exServers false 2 0))).2.log (Event.nsGet exKey))).1
        = some (exServers, none) ∧
    (Resolve (exEnv schedReferralThenAnswer) udp exReq exServers false 2 0 exState).1
        = Outcome.ret (some { exAnswer with Ns := [] }) none ∧
    (Resolve (exEnv schedReferralThenAnswer) udp exReq exServers false 2 0 exState).1
        ≠ Outcome.ret (some exReferral) (some Err.loopDetection) ∧
    (Resolve (exEnv schedReferralThenAnswer) udp exReq exServers false 2 0 exState).2.trace
        = [Event.call exServers false 2 0, Event.probe udp exReq exServers, Event.nsGet exKey,
           Event.nsSet exKey 300 exServers, Event.call exServers false 1 3,
           Event.probe udp exReq exServers] ∧
    callDepths (Resolve (exEnv schedReferralThenAnswer) udp exReq exServers false 2 0
        exState).2.trace = [2, 1] := by
  decide

/-- C2, the failing case.  The probe returns a referral without Answer and
without glue; the address of its only nameserver cannot be resolved, so the
server list built is empty.  `Resolve` returns the response of the probe and
inserts nothing in the nameserver cache, but it reports the error of the
failed address lookup, "resolv failed", left in the named result `err`. -/
theorem Resolve_empty_delegation_error :
    lookup ((exEnv schedGlueless).sched 1) udp exReq exServers
        = Outcome.ret (some exGlueless) none ∧
    exGlueless.Answer = [] ∧ exGlueless.Ns ≠ [] ∧
    (buildServers (exEnv schedGlueless) udp exReq exGlueless
        ((probe (exEnv schedGlueless) udp exReq exServers
          (exState.log (Event.call exServers false 1 0))).2.log (Event.nsGet exKey))).1
        = some ([], some Err.resolvFailed) ∧
    (Resolve (exEnv schedGlueless) udp exReq exServers false 1 0 exState).1
        = Outcome.ret (some exGlueless) (some Err.resolvFailed) ∧
    (Resolve (exEnv schedGlueless) udp exReq exServers false 1 0 exState).1
        ≠ Outcome.ret (some exGlueless) none ∧
    (Resolve (exEnv schedGlueless) udp exReq exServers false 1 0 exState).2.nsCache = [] ∧
    (Resolve (exEnv schedGlueless) udp exReq exServers false 1 0 exState).2.trace
        = [Event.call exServers false 1 0, Event.probe udp exReq exServers, Event.nsGet exKey,
           Event.tempGet ⟨str "ns1.example.com", str "A", str "IN"⟩,
           Event.nsProbe udp (dns.Msg.new.SetQuestion 0 (str "ns1.example.com.") dns.TypeA)
             [str "8.8.8.8:53"]] := by
  decide

/-- C3 (ancestor search).  Let the candidates be the name `n` of the question
and the non-empty names obtained from it by stripping the leftmost label again
and again (`ancestors`; the search stops at the empty name without looking it
up).  For every state of the nameserver cache, either some candidate has a
live entry under `(unFqdn a, "NS", class)` and `searchCache` returns the
servers of the entry of the longest such candidate, or no candidate has a live
entry and it returns the root hints.  Whichever candidate is the longest with
a live entry, its servers are the result.  The search changes neither cache,
and with any bound above the length of the name the bounded search yields
this result.  `"NS"` is the entry of `dns.TypeToString` at `dns.TypeNS`. -/
theorem searchCache_deepest_cached_ancestor (E : Env)
    (hNS : E.TypeToString dns.TypeNS = str "NS") (q : dns.Question) (s : State) :
    ((∃ a ∈ q.Name :: ancestors q.Name, ∃ d : NS,
        NameServerCache.Get s.nsCache s.now
          (keyGen ⟨unFqdn a, str "NS", E.ClassToString q.Qclass⟩) = some d ∧
        (∀ b ∈ q.Name :: ancestors q.Name,
          (NameServerCache.Get s.nsCache s.now
            (keyGen ⟨unFqdn b, str "NS", E.ClassToString q.Qclass⟩)).isSome = true →
          b.length ≤ a.length) ∧
        (searchCache E q s).1 = d.Servers) ∨
      ((∀ a ∈ q.Name :: ancestors q.Name,
          NameServerCache.Get s.nsCache s.now
            (keyGen ⟨unFqdn a, str "NS", E.ClassToString q.Qclass⟩) = none) ∧
        (searchCache E q s).1 = roothints)) ∧
    (∀ a ∈ q.Name :: ancestors q.Name, ∀ d : NS,
      NameServerCache.Get s.nsCache s.now
          (keyGen ⟨unFqdn a, str "NS", E.ClassToString q.Qclass⟩) = some d →
      (∀ b ∈ q.Name :: ancestors q.Name,
        (NameServerCache.Get s.nsCache s.now
          (keyGen ⟨unFqdn b, str "NS", E.ClassToString q.Qclass⟩)).isSome = true →
        b.length ≤ a.length) →
      (searchCache E q s).1 = d.Servers) ∧
    (searchCache E q s).2.nsCache = s.nsCache ∧
    (searchCache E q s).2.tempCache = s.tempCache ∧
    (∀ fuel, q.Name.length < fuel → searchCacheFuel E fuel q s = some (searchCache E q s)) := by
  obtain ⟨keys, hk⟩ := searchCache_eq E q s
  have hl : ∀ a, liveNS E s q.Qclass a = NameServerCache.Get s.nsCache s.now
      (keyGen ⟨unFqdn a, str "NS", E.ClassToString q.Qclass⟩) := by
    intro a
    simp only [liveNS, hNS]
  refine ⟨?_, ?_, by rw [hk], by rw [hk], fun fuel h => searchCacheFuel_enough E fuel q s h⟩
  · cases hf : (q.Name :: ancestors q.Name).findSome? (liveNS E s q.Qclass) with
    | none =>
      refine Or.inr ⟨?_, by rw [hk, hf]⟩
      intro a ha
      rw [← hl]
      exact List.findSome?_eq_none_iff.mp hf a ha
    | some d =>
      obtain ⟨a, ha, hfa, hmax⟩ :=
        longest_of_findSome? (liveNS E s q.Qclass) _ (candidates_pairwise q.Name) d hf
      refine Or.inl ⟨a, ha, d, by rw [← hl]; exact hfa, ?_, by rw [hk, hf]⟩
      intro b hb hs
      exact hmax b hb (by rw [hl]; exact hs)
  · intro a ha d hd hmax
    have := findSome?_of_longest (liveNS E s q.Qclass) _ (candidates_pairwise q.Name) a d ha
      (by rw [hl]; exact hd) (fun b hb hs => hmax b hb (by rw [← hl]; exact hs))
    rw [hk, this]

/-- C3 for `www.example.com.` when `com.` and `example.com.` are cached. -/
theorem searchCache_deepest_cached_ancestor_witness :
    (exEnv schedGlueless).TypeToString dns.TypeNS = str "NS" ∧
    (searchCache (exEnv schedGlueless) ⟨str "www.example.com.", 1, 1⟩ exCached).1 = exServers :=
  ⟨by decide,
    (searchCache_deepest_cached_ancestor (exEnv schedGlueless) (by decide)
      ⟨str "www.example.com.", 1, 1⟩ exCached).2.1 (str "example.com.") (by decide)
      ⟨exServers, 300, 0⟩ (by decide) (by decide)⟩

/-- C4, the failing case.  One server; the ticker fires before the exchange
returns, so `lookup` leaves the loop and waits in `wg.Wait()`; the exchange
then returns an acceptable response, whose send finds no receiver.  `lookup`
returns "resolv failed" although a probe produced an acceptable response. -/
theorem lookup_drops_late_response :
    L ⟨some exAnswer, none⟩ = true ∧
    lookup [Ev.tick, Ev.done 0 ⟨some exAnswer, none⟩] udp exReq exServers
      = Outcome.ret none (some Err.resolvFailed) ∧
    Err.resolvFailed.Error = "resolv failed" := by
  decide

theorem lookupRun_some (n : Nat) :
    ∀ (evs : List Ev) (st : LState) (r : dns.Msg) (e : Option Err),
      lookupRun n st evs = (some r, e) →
        e = none ∧ ∃ i x, Ev.done i x ∈ evs ∧ L x = true ∧ x.r = some r
  | [], st, r, e, h => by simp [lookupRun] at h
  | Ev.tick :: evs, st, r, e, h => by
    have ih := lookupRun_some n evs
    simp only [lookupRun] at h
    have key : ∃ st1, lookupRun n st1 evs = (some r, e) := by
      split at h
      · exact ⟨_, h⟩
      · split at h
        · exact ⟨_, h⟩
        · exact ⟨_, h⟩
    obtain ⟨st1, h1⟩ := key
    obtain ⟨he, i, x, hm, hx⟩ := ih st1 r e h1
    exact ⟨he, i, x, List.mem_cons_of_mem _ hm, hx⟩
  | Ev.done i x :: evs, st, r, e, h => by
    have ih := lookupRun_some n evs
    simp only [lookupRun] at h
    split at h
    · split at h
      · rename_i hL
        simp only [Prod.mk.injEq] at h
        exact ⟨h.2.symm, i, x, List.mem_cons_self _ _, hL.1, h.1⟩
      · split at h
        · simp at h
        · obtain ⟨he, j, y, hm, hy⟩ := ih _ r e h
          exact ⟨he, j, y, List.mem_cons_of_mem _ hm, hy⟩
    · obtain ⟨he, j, y, hm, hy⟩ := ih _ r e h
      exact ⟨he, j, y, List.mem_cons_of_mem _ hm, hy⟩

theorem L_iff (x : Exchange) :
    L x = true ↔ ((x.err = none ∨ x.err = some ExchangeErr.ErrTruncated) ∧
      ∀ r, x.r = some r → r.Rcode ≠ dns.RcodeServerFailure) := by
  have h02 : dns.RcodeSuccess ≠ dns.RcodeServerFailure := by decide
  obtain ⟨r, err⟩ := x
  cases r with
  | none =>
    cases err with
    | none => simp [L]
    | some e => cases e <;> simp [L]
  | some m =>
    by_cases h0 : m.Rcode = dns.RcodeSuccess
    · cases err with
      | none => simp [L, h0, h02]
      | some e => cases e <;> simp [L, h0, h02]
    · by_cases h2 : m.Rcode = dns.RcodeServerFailure
      · cases err with
        | none => simp [L, h2, h02.symm]
        | some e => cases e <;> simp [L, h2, h02.symm]
      · cases err with
        | none => simp [L, h0, h2]
        | some e => cases e <;> simp [L, h0, h2]

/-- C5 (SERVFAIL suppression).  A probe offers its response on `res` exactly
when the exchange returned no error or the truncation error and the response,
if there is one, does not carry rcode SERVFAIL.  Hence a response returned by
`lookup`, under any events, has an rcode other than SERVFAIL (and comes with
no error); and every response with an rcode other than SERVFAIL, such as
NXDOMAIN or REFUSED, is returned by `lookup` when its probe is the first to
finish. -/
theorem lookup_servfail_suppression :
    (∀ x : Exchange, L x = true ↔
      ((x.err = none ∨ x.err = some ExchangeErr.ErrTruncated) ∧
        ∀ r, x.r = some r → r.Rcode ≠ dns.RcodeServerFailure)) ∧
    (∀ (evs : List Ev) (Net : GoString) (req : dns.Msg) (servers : List GoString) (r : dns.Msg)
        (err : Option Err),
      lookup evs Net req servers = Outcome.ret (some r) err →
        r.Rcode ≠ dns.RcodeServerFailure ∧ err = none) ∧
    (∀ (r : dns.Msg), r.Rcode ≠ dns.RcodeServerFailure →
      ∀ (Net : GoString) (req : dns.Msg) (server : GoString), req.Question ≠ [] →
        lookup [Ev.done 0 ⟨some r, none⟩] Net req [server] = Outcome.ret (some r) none) := by
  refine ⟨L_iff, ?_, ?_⟩
  · intro evs Net req servers r err h
    unfold lookup at h
    split at h
    · simp at h
    · split at h
      · simp at h
      · simp only [Outcome.ret.injEq] at h
        obtain ⟨he, i, x, _, hL, hr⟩ := lookupRun_some _ evs _ r err (Prod.ext h.1 h.2)
        exact ⟨((L_iff x).mp hL).2 r hr, he⟩
  · intro r hr Net req server hq
    have hL : L ⟨some r, none⟩ = true := (L_iff _).mpr ⟨Or.inl rfl, fun m hm => by
      simp only [Option.some.injEq] at hm
      rw [← hm]; exact hr⟩
    unfold lookup
    split
    · rename_i h; exact absurd h hq
    · simp [lookupRun, hL]

/-- C5 at a response with rcode NXDOMAIN. -/
theorem lookup_servfail_suppression_witness :
    exNXDomain.Rcode ≠ dns.RcodeServerFailure ∧
    lookup [Ev.done 0 ⟨some exNXDomain, none⟩] udp exReq exServers
      = Outcome.ret (some exNXDomain) none :=
  ⟨by decide,
    lookup_servfail_suppression.2.2 exNXDomain (by decide) udp exReq (str "1.2.3.4:53")
      (by decide)⟩

end Sdns
